import Mathlib

/-!
# go-cache: the in-process store and the generic cache layer

A shallow embedding of `src/inmemory.go`, `src/generic.go` and `src/pkcs.go`.

* Go's `interface{}` payloads are the inductive `Value`; `fmt.Sprintf("%T", v)` is
  `Value.typeOf`, whose result `GoType.name` prints.
* A destination argument (`value interface{}` of `Get`) is a `Dest`: a pointer to a typed
  variable together with the variable's current content.
* `time.Now()` is an explicit `Time` argument of every operation that reads the clock.
* `int64` arithmetic is done on `Int` and wrapped with `wrapInt64`; Go's `int` is taken to be
  64 bits wide and a `uint64` is a `Nat`.
* A run-time panic (failed type assertion, index out of range) is `Run.panicked`.
-/

namespace GoCache

/-! ## Machine integers, durations and the clock -/

/-- Two's-complement wrap of a mathematical integer into the `int64` range. -/
def wrapInt64 (x : Int) : Int := (x + 2 ^ 63) % 2 ^ 64 - 2 ^ 63

/-- The value is representable as an `int64`. -/
def isInt64 (x : Int) : Prop := -(2 : Int) ^ 63 ≤ x ∧ x < (2 : Int) ^ 63

instance (x : Int) : Decidable (isInt64 x) := by unfold isInt64; infer_instance

/-- The constant `time.Second`: a `time.Duration` counts nanoseconds. -/
def Second : Int := 1000000000

/-- Modelled from the spec: the sentinel `persistence.DEFAULT` of the external package, the
zero duration, which stands for the store's default expiry. -/
def DEFAULT : Int := 0

/-- Modelled from the spec: the sentinel `persistence.FOREVER` of the external package, the
duration `-1`, which stands for an entry that never expires. -/
def FOREVER : Int := -1

/-- The constant `unixToInternal` of package `time`: the seconds from the start of year 1,
where a `time.Time` starts counting, to the Unix epoch. -/
def unixToInternal : Int := 62135596800

/-- An instant as a `time.Time` holds it: whole seconds and the nanoseconds within that
second. The seconds are written relative to the Unix epoch; the `int64` a `time.Time` keeps is
`sec + unixToInternal`. -/
structure Time where
  sec : Int
  nsec : Fin 1000000000
deriving DecidableEq, Repr

/-- The method `time.Time.Unix`: the whole seconds since the epoch. -/
def Time.Unix (t : Time) : Int := t.sec

/-- The call `time.Unix(sec, 0)`: the instant `sec` seconds after the epoch. The value keeps
`sec + unixToInternal` as an `int64`, and that sum wraps for a `sec` above
`MaxInt64 - unixToInternal`. -/
def Time.ofUnix (sec : Int) : Time :=
  { sec := wrapInt64 (sec + unixToInternal) - unixToInternal, nsec := 0 }

/-- The method `time.Time.Before`: strictly earlier, seconds first and then nanoseconds. -/
def Time.Before (t u : Time) : Bool :=
  decide (t.sec < u.sec) || (decide (t.sec = u.sec) && decide (t.nsec < u.nsec))

/-- The instant as a rational number of seconds since the epoch. -/
def Time.seconds (t : Time) : ℚ := (t.sec : ℚ) + (t.nsec.val : ℚ) / 1000000000

/-! ## Values, types and destinations -/

/-- A byte string (`[]byte`); `byte(x)` conversions are written `x % 256`. -/
abbrev Bytes := List Nat

/-- The fixed-width integer types other than `int`. -/
inductive NumType where
  | int8 | int16 | int32 | int64 | uint | uint8 | uint16 | uint32 | uint64
deriving DecidableEq, Repr

/-- A dynamically typed Go value, as held by an `interface{}`. -/
inductive Value where
  | nil
  | string (s : String)
  | int (n : Int)
  | num (ty : NumType) (n : Int)
  | float64 (bits : Nat)
  | bool (b : Bool)
  | bytes (b : Bytes)
  | entry (data : Value) (timeAdded : Int) (expiresAt : Int)
  | response (status : Int) (header : List (String × List String)) (data : Bytes)
deriving DecidableEq, Repr

/-- The dynamic types that `%T` tells apart. -/
inductive GoType where
  | nil
  | string
  | int
  | num (ty : NumType)
  | float64
  | bool
  | bytes
  | GenericCacheEntry
  | ResponseCache
  | iface
  | ptr (t : GoType)
deriving DecidableEq, Repr

/-- The text `%T` prints for a fixed-width integer type. -/
def NumType.name : NumType → String
  | .int8 => "int8" | .int16 => "int16" | .int32 => "int32" | .int64 => "int64"
  | .uint => "uint" | .uint8 => "uint8" | .uint16 => "uint16" | .uint32 => "uint32"
  | .uint64 => "uint64"

/-- The text `fmt.Sprintf("%T", v)` yields for a value of the type. -/
def GoType.name : GoType → String
  | .nil => "<nil>"
  | .string => "string"
  | .int => "int"
  | .num ty => ty.name
  | .float64 => "float64"
  | .bool => "bool"
  | .bytes => "[]uint8"
  | .GenericCacheEntry => "cache.GenericCacheEntry"
  | .ResponseCache => "cache.ResponseCache"
  | .iface => "interface {}"
  | .ptr t => "*" ++ t.name

/-- The dynamic type of a value. -/
def Value.typeOf : Value → GoType
  | .nil => .nil
  | .string _ => .string
  | .int _ => .int
  | .num ty _ => .num ty
  | .float64 _ => .float64
  | .bool _ => .bool
  | .bytes _ => .bytes
  | .entry _ _ _ => .GenericCacheEntry
  | .response _ _ _ => .ResponseCache

/-- The struct `GenericCacheEntry`. -/
structure GenericCacheEntry where
  Data : Value
  TimeAdded : Int
  ExpiresAt : Int
deriving DecidableEq, Repr

/-- An entry boxed into an `interface{}`. -/
def GenericCacheEntry.toValue (e : GenericCacheEntry) : Value :=
  .entry e.Data e.TimeAdded e.ExpiresAt

/-- A destination argument: `ptr cur` is a non-nil pointer to a variable of `cur`'s type that
currently holds `cur`; `ptrIface cur` points to an `interface{}` variable holding `cur`;
`val v` is a plain value passed where a pointer is expected. -/
inductive Dest where
  | ptr (cur : Value)
  | ptrIface (cur : Value)
  | val (v : Value)
deriving DecidableEq, Repr

/-- The dynamic type of a destination argument. -/
def Dest.typeOf : Dest → GoType
  | .ptr cur => .ptr cur.typeOf
  | .ptrIface _ => .ptr .iface
  | .val v => v.typeOf

/-- The assignment `*p = v` through a destination pointer. -/
def Dest.assign (d : Dest) (v : Value) : Dest :=
  match d with
  | .ptr _ => .ptr v
  | .ptrIface _ => .ptrIface v
  | .val w => .val w

/-- The error values that cross the `CacheStore` boundary. The sources import two forks of
the external `persistence` package, and each fork declares error values of its own:
`ErrCacheMiss`, `ErrNotStored` and `ErrNotSupport` are the values inmemory.go names
(`github.com/BoseCorp/cache/persistence`), `GenericErrCacheMiss` and `GenericErrNotSupport` are
`persistence.ErrCacheMiss` and `persistence.ErrNotSupport` as generic.go and the tests name
them (`github.com/Jim-Lambert-Bose/cache/persistence`). `ErrPaddingSize` is the error of
pkcs.go and `errorf` an error built by `fmt.Errorf`. -/
inductive CacheError where
  | ErrCacheMiss
  | ErrNotStored
  | ErrNotSupport
  | GenericErrCacheMiss
  | GenericErrNotSupport
  | ErrPaddingSize
  | errorf (msg : String)
deriving DecidableEq, Repr

/-- The outcome of running Go code that may panic. -/
inductive Run (α : Type) where
  | returned (a : α)
  | panicked
deriving DecidableEq, Repr

/-! ## Entries -/

/-- The method `GenericCacheEntry.Expired` (generic.go), with the clock reading made explicit. -/
def GenericCacheEntry.Expired (e : GenericCacheEntry) (now : Time) : Bool :=
  if e.ExpiresAt = 0 then false
  else (Time.ofUnix e.ExpiresAt).Before now

/-! ## The bounded map behind the in-process store -/

/-- The entry stored under a key of an association list, first match. -/
def lookupKey (k : String) : List (String × GenericCacheEntry) → Option GenericCacheEntry
  | [] => none
  | (k', e) :: rest => if k' = k then some e else lookupKey k rest

/-- The association list without the pairs stored under a key. -/
def removeKey (k : String) (l : List (String × GenericCacheEntry)) :
    List (String × GenericCacheEntry) :=
  l.filter (fun p => decide (p.1 ≠ k))

/-- Modelled from the spec: the bounded mapping from key to entry of capacity `size` behind
the in-process store. The type `lru.ARCCache` comes from an external package and is not under
src/. Only the mapping and its bound are modelled: resident pairs are kept most recently
used first, and a new key arriving at capacity displaces the least recently used resident. -/
structure ARCCache where
  size : Nat
  items : List (String × GenericCacheEntry)
deriving DecidableEq, Repr

/-- The constructor `lru.NewARC`: a non-positive capacity is an error. -/
def NewARC (size : Int) : Option ARCCache :=
  if size ≤ 0 then none else some { size := size.toNat, items := [] }

/-- The method `lru.Get`: the entry under the key, which becomes the most recently used. -/
def ARCCache.Get (c : ARCCache) (key : String) : Option GenericCacheEntry × ARCCache :=
  match lookupKey key c.items with
  | some e => (some e, { c with items := (key, e) :: removeKey key c.items })
  | none => (none, c)

/-- The method `lru.Add`: insert or overwrite, displacing a resident only for a new key at
capacity. -/
def ARCCache.Add (c : ARCCache) (key : String) (e : GenericCacheEntry) : ARCCache :=
  if (lookupKey key c.items).isSome then
    { c with items := (key, e) :: removeKey key c.items }
  else if c.size ≤ c.items.length then
    { c with items := (key, e) :: c.items.dropLast }
  else
    { c with items := (key, e) :: c.items }

/-- The method `lru.Remove`. -/
def ARCCache.Remove (c : ARCCache) (key : String) : ARCCache :=
  { c with items := removeKey key c.items }

/-- The method `lru.Keys`: the resident keys, oldest first. -/
def ARCCache.Keys (c : ARCCache) : List String := (c.items.map Prod.fst).reverse

/-- The method `lru.Len`. -/
def ARCCache.Len (c : ARCCache) : Nat := c.items.length

/-- The method `lru.Purge`. -/
def ARCCache.Purge (c : ARCCache) : ARCCache := { c with items := [] }

/-- Well-formed cache states: a positive capacity that is respected and one pair per key. -/
def ARCCache.WF (c : ARCCache) : Prop :=
  1 ≤ c.size ∧ c.items.length ≤ c.size ∧ (c.items.map Prod.fst).Nodup

instance (c : ARCCache) : Decidable c.WF := by unfold ARCCache.WF; infer_instance

/-! ## InMemoryStore (inmemory.go) -/

/-- The struct `inMemoryStore`: the bounded map and the default expiry (a duration in
nanoseconds). The janitor goroutine is not part of the state: the theorems range over every
store state, swept or not. -/
structure InMemoryStore where
  lru : ARCCache
  DefaultExp : Int
deriving DecidableEq, Repr

/-- What `Get` hands back: the error (`none` is Go's nil), the destination after the call
and the store after the call. -/
structure GetResult where
  err : Option CacheError
  dest : Dest
  store : InMemoryStore
deriving DecidableEq, Repr

/-- What a write operation hands back: the error and the store after the call. -/
structure WriteResult where
  err : Option CacheError
  store : InMemoryStore
deriving DecidableEq, Repr

/-- The constructor `NewInMemoryStore`, without the metric and the janitor goroutine. -/
def NewInMemoryStore (maxEntries : Int) (defaultExpiration : Int) : Option InMemoryStore :=
  match NewARC maxEntries with
  | none => none
  | some lru => some { lru := lru, DefaultExp := defaultExpiration }

/-- The entry resident under a key, read without touching the store. -/
def InMemoryStore.entryAt (c : InMemoryStore) (key : String) : Option GenericCacheEntry :=
  lookupKey key c.lru.items

/-- The method `InMemoryStore.Get`. Each `entry.Data.(T)` is a type assertion that panics on a
payload of another type. -/
def InMemoryStore.Get (c : InMemoryStore) (now : Time) (key : String) (value : Dest) :
    Run GetResult :=
  match c.lru.Get key with
  | (some entry, lru1) =>
    if entry.Expired now then
      .returned { err := some .ErrCacheMiss, dest := value,
                  store := { c with lru := lru1.Remove key } }
    else
      let c1 : InMemoryStore := { c with lru := lru1 }
      match value.typeOf with
      | .ptr .string =>
        match entry.Data with
        | .string s => .returned { err := none, dest := value.assign (.string s), store := c1 }
        | _ => .panicked
      | .ptr .int =>
        match entry.Data with
        | .int n => .returned { err := none, dest := value.assign (.int n), store := c1 }
        | _ => .panicked
      | .ptr .GenericCacheEntry =>
        .returned { err := none, dest := value.assign entry.toValue, store := c1 }
      | .ptr .ResponseCache =>
        match entry.Data with
        | .response st h d =>
          .returned { err := none, dest := value.assign (.response st h d), store := c1 }
        | _ => .panicked
      | _ => .returned { err := some .ErrNotSupport, dest := value, store := c1 }
  | (none, lru1) =>
    .returned { err := some .ErrCacheMiss, dest := value, store := { c with lru := lru1 } }

/-- The expiry stamp `doAddSet` computes at unix second `now` for the duration `exp`. -/
def expiryStamp (defaultExp : Int) (now : Int) (exp : Int) : Int :=
  if exp = FOREVER then 0
  else if exp ≠ 0 then wrapInt64 (now + Int.tdiv exp Second)
  else wrapInt64 (now + Int.tdiv defaultExp Second)

/-- The method `InMemoryStore.doAddSet`: a `GenericCacheEntry` argument is unwrapped to its
`Data`, any other value is stored as it is. -/
def InMemoryStore.doAddSet (c : InMemoryStore) (now : Time) (key : String) (value : Value)
    (exp : Int) : WriteResult :=
  let nowSec := now.Unix
  let expiresAt := expiryStamp c.DefaultExp nowSec exp
  match value with
  | .entry data _ _ =>
    let e : GenericCacheEntry := { Data := data, ExpiresAt := expiresAt, TimeAdded := nowSec }
    { err := none, store := { c with lru := c.lru.Add key e } }
  | _ =>
    let e : GenericCacheEntry := { Data := value, ExpiresAt := expiresAt, TimeAdded := nowSec }
    { err := none, store := { c with lru := c.lru.Add key e } }

/-- The method `InMemoryStore.Keys`. -/
def InMemoryStore.Keys (c : InMemoryStore) : List String := c.lru.Keys

/-- The method `InMemoryStore.Len`. -/
def InMemoryStore.Len (c : InMemoryStore) : Nat := c.lru.Len

/-- The method `InMemoryStore.Set`. -/
def InMemoryStore.Set (c : InMemoryStore) (now : Time) (key : String) (value : Value)
    (exp : Int) : WriteResult :=
  c.doAddSet now key value exp

/-- The method `InMemoryStore.Add`. -/
def InMemoryStore.Add (c : InMemoryStore) (now : Time) (key : String) (value : Value)
    (exp : Int) : WriteResult :=
  match c.lru.Get key with
  | (some _, lru1) => { err := some .ErrNotStored, store := { c with lru := lru1 } }
  | (none, lru1) => ({ c with lru := lru1 } : InMemoryStore).doAddSet now key value exp

/-- The method `InMemoryStore.Replace`. -/
def InMemoryStore.Replace (c : InMemoryStore) (now : Time) (key : String) (value : Value)
    (exp : Int) : WriteResult :=
  match c.lru.Get key with
  | (some _, lru1) => ({ c with lru := lru1 } : InMemoryStore).doAddSet now key value exp
  | (none, lru1) => { err := some .ErrNotStored, store := { c with lru := lru1 } }

/-- Well-formed stores: the bounded map is well formed. -/
def InMemoryStore.WF (c : InMemoryStore) : Prop := c.lru.WF

instance (c : InMemoryStore) : Decidable c.WF := by unfold InMemoryStore.WF; infer_instance

/-! ## Padding (pkcs.go) -/

/-- The method `pkcs5.Padding`: `blockSize - len % blockSize` bytes of that value are
appended. A zero block size divides by zero and a negative one gives `bytes.Repeat` a negative
count; both panic. -/
def Padding (src : Bytes) (blockSize : Int) : Run Bytes :=
  if blockSize ≤ 0 then .panicked
  else
    let srcLen : Int := src.length
    let padLen : Int := blockSize - Int.tmod srcLen blockSize
    .returned (src ++ List.replicate padLen.toNat (padLen % 256).toNat)

/-- The method `pkcs5.Unpadding`: `src[srcLen-1]` panics on the empty slice. -/
def Unpadding (src : Bytes) (blockSize : Int) : Run (Except CacheError Bytes) :=
  let srcLen : Int := src.length
  match src.getLast? with
  | none => .panicked
  | some last =>
    let paddingLen : Int := last
    if paddingLen ≥ srcLen ∨ paddingLen > blockSize then
      .returned (.error .ErrPaddingSize)
    else
      .returned (.ok (src.take (srcLen - paddingLen).toNat))

/-! ## Keys and encryption (generic.go) -/

/-- The library routines the cache layer calls and that are not part of the repository:
AES in CBC mode over whole blocks (`crypto/aes`, `crypto/cipher`) and the gob codec for an
`interface{}` payload (`encoding/gob`; `none` is a reported error). -/
structure Codec where
  cbcEncrypt : Bytes → Bytes → Bytes → Bytes
  cbcDecrypt : Bytes → Bytes → Bytes → Bytes
  gobEncode : Value → Option Bytes
  gobDecode : Bytes → Option Value

/-- The exchange `a[i], a[j] = a[j], a[i]`. -/
def swapAt (a : Bytes) (i j : Nat) : Bytes :=
  (a.set i (a.getD j 0)).set j (a.getD i 0)

/-- The loop of `keyAndIV`, for the index `i` running from `n - 1` down to `0`. -/
def reverseLoop (a : Bytes) : Nat → Bytes
  | 0 => a
  | i + 1 => reverseLoop (swapAt a i (a.length - 1 - i)) i

/-- The function `keyAndIV`. Both results are the slice `tmp[:16]` of one array, so the
in-place reversal of `IV` is seen through `key` as well. -/
def keyAndIV (secret : Bytes) : Except CacheError (Bytes × Bytes) :=
  if secret.length < 16 then
    .error (.errorf "cache.keyAndIV: secret is too short - must be a min len of 16")
  else
    let window := secret.take 16
    let reversed := reverseLoop window (window.length / 2)
    .ok (reversed, reversed)

/-- The cipher refuses a key that is not 16, 24 or 32 bytes long (`aes.NewCipher`). -/
def aesKeySizeOk (key : Bytes) : Bool :=
  key.length = 16 || key.length = 24 || key.length = 32

/-- The function `encryptByteArray`. `NewCBCEncrypter` panics on an IV that is not one block
long and `CryptBlocks` on an input that is not whole blocks. -/
def encryptByteArray (cd : Codec) (data secret : Bytes) : Run (Except CacheError Bytes) :=
  match keyAndIV secret with
  | .error e => .returned (.error e)
  | .ok (key, iv) =>
    if !aesKeySizeOk key then
      .returned (.error (.errorf "crypto/aes: invalid key size"))
    else if iv.length ≠ 16 ∨ data.length % 16 ≠ 0 then .panicked
    else .returned (.ok (cd.cbcEncrypt key iv data))

/-- The function `decryptByteArray`. -/
def decryptByteArray (cd : Codec) (data secret : Bytes) : Run (Except CacheError Bytes) :=
  match keyAndIV secret with
  | .error e => .returned (.error e)
  | .ok (key, iv) =>
    if !aesKeySizeOk key then
      .returned (.error (.errorf "crypto/aes: invalid key size"))
    else if iv.length ≠ 16 ∨ data.length % 16 ≠ 0 then .panicked
    else .returned (.ok (cd.cbcDecrypt key iv data))

/-- The text of an error value (`err.Error()`). The texts of the `persistence` errors are
those of the external package, the same in both forks; what the cache layer relies on is that
the text of a miss is shared by the forks and differs from the other texts. -/
def CacheError.Error : CacheError → String
  | .ErrCacheMiss => "cache: key not found."
  | .ErrNotStored => "cache: not stored."
  | .ErrNotSupport => "cache: not support."
  | .GenericErrCacheMiss => "cache: key not found."
  | .GenericErrNotSupport => "cache: not support."
  | .ErrPaddingSize => "padding size error"
  | .errorf msg => msg

/-! ## GenericCache (generic.go) -/

/-- The struct `GenericCache`. `Cache` is the backing store behind the `interface{}` field
(`none` is nil); the in-process store is the one `CacheStore` of the sources. `cType` and
`cLevel` are the integer constants of redispool.go. The logger only writes logs and is left
out. -/
structure GenericCache where
  Cache : Option InMemoryStore
  ReadCache : Option GenericCache
  sharedSecret : Bytes
  DefaultExp : Int
  cType : Int
  cLevel : Int
  KeyPrefix : Option Bytes
  EncryptData : Bool

/-- The constant `ReadOnly` of redispool.go. -/
def ReadOnly : Int := 0

/-- The constant `Writable` of redispool.go. -/
def Writable : Int := 1

/-- The constant `L1` of redispool.go. -/
def L1 : Int := 1

/-- The constant `L2` of redispool.go. -/
def L2 : Int := 2

/-- The constructor `NewCacheWithPool`; the secret arrives as the bytes of the string. -/
def NewCacheWithPool (cachePool : Option InMemoryStore) (cType cLevel : Int)
    (sharedSecret : Bytes) (expirySeconds : Int) (keyPrefix : Option Bytes)
    (encryptData : Bool) : GenericCache :=
  { Cache := cachePool, ReadCache := none, sharedSecret := sharedSecret,
    DefaultExp := wrapInt64 (expirySeconds * Second), cType := cType, cLevel := cLevel,
    KeyPrefix := keyPrefix, EncryptData := encryptData }

/-- The error `GenericCache.<op>: error - no L<level>/T<type> cache intialized`. -/
def GenericCache.noCacheError (c : GenericCache) (op : String) : CacheError :=
  .errorf ("GenericCache." ++ op ++ ": error - no L" ++ toString c.cLevel ++ "/T" ++
    toString c.cType ++ " cache intialized")

/-- The method `GenericCache.encryptEntry`. -/
def GenericCache.encryptEntry (c : GenericCache) (cd : Codec) (data : Bytes) :
    Run (Except CacheError Bytes) :=
  if c.EncryptData then
    match Padding data 16 with
    | .panicked => .panicked
    | .returned paddedData =>
      match encryptByteArray cd paddedData c.sharedSecret with
      | .panicked => .panicked
      | .returned (.error cryptErr) =>
        .returned (.error (.errorf
          ("GenericCache.encryptEntry: can't encrypt data: " ++ cryptErr.Error)))
      | .returned (.ok encrypted) => .returned (.ok encrypted)
  else .returned (.ok data)

/-- The method `GenericCache.decryptEntry`. -/
def GenericCache.decryptEntry (c : GenericCache) (cd : Codec) (data : Bytes) :
    Run (Except CacheError Bytes) :=
  if c.EncryptData then
    match decryptByteArray cd data c.sharedSecret with
    | .panicked => .panicked
    | .returned (.error cryptErr) =>
      .returned (.error (.errorf
        ("GenericCache.decryptEntry: can't decrypt data: " ++ cryptErr.Error)))
    | .returned (.ok decryptedData) =>
      match Unpadding decryptedData 16 with
      | .panicked => .panicked
      | .returned (.error cryptErr) =>
        .returned (.error (.errorf
          ("GenericCache.decryptEntry: can't unpadding error: " ++ cryptErr.Error)))
      | .returned (.ok unpaddedData) => .returned (.ok unpaddedData)
  else .returned (.ok data)

/-- The method `GenericCache.NewGenericCacheEntry`, with the clock reading made explicit. -/
def GenericCache.NewGenericCacheEntry (c : GenericCache) (now : Time) (data : Value)
    (exp : Int) : GenericCacheEntry :=
  let t := if exp ≠ 0 then exp else c.DefaultExp
  let nowSec := now.Unix
  let expiresAt := wrapInt64 (nowSec + Int.tdiv t Second)
  { Data := data, TimeAdded := nowSec, ExpiresAt := expiresAt }

/-- What a cache operation without a destination hands back. -/
structure CacheWrite where
  err : Option CacheError
  cache : GenericCache

/-- What `GenericCache.Get` hands back. -/
structure CacheRead where
  err : Option CacheError
  dest : Dest
  cache : GenericCache

/-- The method `GenericCache.Set`. With `EncryptData` an entry wrapper has its `Data` gob
encoded and encrypted and is wrapped again; every other value goes to the store as it is. -/
def GenericCache.Set (c : GenericCache) (cd : Codec) (now : Time) (key : String)
    (data : Value) (exp : Int) : Run CacheWrite :=
  match c.Cache with
  | none => .returned { err := some (c.noCacheError "Set"), cache := c }
  | some store =>
    let t := if exp ≠ 0 then exp else c.DefaultExp
    let put (d : Value) : Run CacheWrite :=
      let r := store.Set now key d t
      .returned { err := r.err, cache := { c with Cache := some r.store } }
    if c.EncryptData then
      match data with
      | .entry entryData _ _ =>
        match cd.gobEncode entryData with
        | none => .returned { err := some (.errorf "gob: encode error"), cache := c }
        | some b =>
          match c.encryptEntry cd b with
          | .panicked => .panicked
          | .returned (.error err) => .returned { err := some err, cache := c }
          | .returned (.ok encryptedData) =>
            put (c.NewGenericCacheEntry now (.bytes encryptedData) exp).toValue
      | _ => put data
    else put data

/-- The error mapping of `GenericCache.Get` and `GenericCache.Delete`: an error with the text
of generic.go's `persistence.ErrCacheMiss` becomes that value, any other error is passed on as
the value it is. -/
def mapGetError (err : CacheError) : CacheError :=
  if err.Error ≠ CacheError.GenericErrCacheMiss.Error then err else .GenericErrCacheMiss

/-- The branches of `GenericCache.Get` that only call the store and map its error. -/
def GenericCache.getPlain (c : GenericCache) (store : InMemoryStore) (now : Time)
    (key : String) (value : Dest) : Run CacheRead :=
  match store.Get now key value with
  | .panicked => .panicked
  | .returned r =>
    let c1 : GenericCache := { c with Cache := some r.store }
    match r.err with
    | some err => .returned { err := some (mapGetError err), dest := r.dest, cache := c1 }
    | none => .returned { err := none, dest := r.dest, cache := c1 }

/-- The value an `interface{}` argument holds when it is not a pointer. -/
def Dest.boxed : Dest → Value
  | .val v => v
  | .ptr _ => .nil
  | .ptrIface _ => .nil

/-- The branch of `GenericCache.Get` for a plain integer argument: the store is handed
`&value`, a pointer to the local `interface{}` variable, so the caller's value stays as it
is. -/
def GenericCache.getBoxed (c : GenericCache) (store : InMemoryStore) (now : Time)
    (key : String) (value : Dest) : Run CacheRead :=
  match c.getPlain store now key (.ptrIface value.boxed) with
  | .panicked => .panicked
  | .returned r => .returned { err := r.err, dest := value, cache := r.cache }

/-- The method `GenericCache.Get`. -/
def GenericCache.Get (c : GenericCache) (cd : Codec) (now : Time) (key : String)
    (value : Dest) : Run CacheRead :=
  match c.Cache with
  | none => .returned { err := some (c.noCacheError "Get"), dest := value, cache := c }
  | some store =>
    match value.typeOf with
    | .ptr .ResponseCache => c.getPlain store now key value
    | .ptr .GenericCacheEntry =>
      match c.getPlain store now key value with
      | .panicked => .panicked
      | .returned r =>
        match r.err with
        | some err => .returned { err := some err, dest := r.dest, cache := r.cache }
        | none =>
          if c.EncryptData then
            match r.dest with
            | .ptr (.entry (.bytes ciphertext) timeAdded expiresAt) =>
              match c.decryptEntry cd ciphertext with
              | .panicked => .panicked
              | .returned (.error err) =>
                .returned { err := some err, dest := r.dest, cache := r.cache }
              | .returned (.ok decryptedData) =>
                match cd.gobDecode decryptedData with
                | none =>
                  .returned { err := some (.errorf "gob: decode error"), dest := r.dest,
                              cache := r.cache }
                | some v =>
                  .returned { err := none, dest := .ptr (.entry v timeAdded expiresAt),
                              cache := r.cache }
            | _ => .panicked
          else .returned { err := none, dest := r.dest, cache := r.cache }
    | .ptr .string => c.getPlain store now key value
    | .ptr .int => c.getPlain store now key value
    | .ptr (.num _) => c.getPlain store now key value
    | .int => c.getBoxed store now key value
    | .num _ => c.getBoxed store now key value
    | .ptr .float64 => c.getPlain store now key value
    | _ => .returned { err := some .GenericErrNotSupport, dest := value, cache := c }

/-! ## Counters, deletion and flushing (inmemory.go) -/

/-- The conversion `uint64(x)` of an `int`: the value modulo `2^64`. -/
def toUint64 (x : Int) : Nat := (x % 2 ^ 64).toNat

/-- What `Increment` and `Decrement` hand back: the new value (a `uint64`), the error and the
store after the call. -/
structure CountResult where
  value : Nat
  err : Option CacheError
  store : InMemoryStore
deriving DecidableEq, Repr

/-- The method `InMemoryStore.Delete`. -/
def InMemoryStore.Delete (c : InMemoryStore) (key : String) : WriteResult :=
  match c.lru.Get key with
  | (some _, lru1) => { err := none, store := { c with lru := lru1.Remove key } }
  | (none, lru1) => { err := some .ErrCacheMiss, store := { c with lru := lru1 } }

/-- The method `InMemoryStore.Increment`; `n` is the `uint64` argument. Go's `int` is taken to
be 64 bits wide, so `int(n)` and the sum wrap as `int64` values. The switch on `%T` of
`entry.Data` and the assertion `entry.Data.(int)` are the one match on the payload. -/
def InMemoryStore.Increment (c : InMemoryStore) (key : String) (n : Nat) : CountResult :=
  match c.lru.Get key with
  | (none, lru1) => { value := 0, err := some .ErrCacheMiss, store := { c with lru := lru1 } }
  | (some entry, lru1) =>
    match entry.Data with
    | .int v =>
      let data := wrapInt64 (v + wrapInt64 n)
      let entry1 : GenericCacheEntry := { entry with Data := .int data }
      { value := toUint64 data, err := none, store := { c with lru := lru1.Add key entry1 } }
    | _ => { value := 0, err := some .ErrNotSupport, store := { c with lru := lru1 } }

/-- The method `InMemoryStore.Decrement`: the comparison `int(n) > entry.Data.(int)` and the
difference are taken on `int` values. -/
def InMemoryStore.Decrement (c : InMemoryStore) (key : String) (n : Nat) : CountResult :=
  match c.lru.Get key with
  | (none, lru1) => { value := 0, err := some .ErrCacheMiss, store := { c with lru := lru1 } }
  | (some entry, lru1) =>
    match entry.Data with
    | .int v =>
      let data := if wrapInt64 n > v then 0 else wrapInt64 (v - wrapInt64 n)
      let entry1 : GenericCacheEntry := { entry with Data := .int data }
      { value := toUint64 data, err := none, store := { c with lru := lru1.Add key entry1 } }
    | _ => { value := 0, err := some .ErrNotSupport, store := { c with lru := lru1 } }

/-- The method `InMemoryStore.Flush`. -/
def InMemoryStore.Flush (c : InMemoryStore) : WriteResult :=
  { err := none, store := { c with lru := c.lru.Purge } }

/-! ## The sweep (inmemory.go) -/

/-- One round of the loop of `DeleteExpired`: the key is looked up and removed when its entry
is expired. -/
def InMemoryStore.sweepKey (now : Time) (c : InMemoryStore) (key : String) : InMemoryStore :=
  match c.lru.Get key with
  | (some e, lru1) =>
    if e.Expired now then { c with lru := lru1.Remove key } else { c with lru := lru1 }
  | (none, lru1) => { c with lru := lru1 }

/-- The method `inMemoryStore.DeleteExpired`: the keys are listed once and then visited in
turn. The clock is read once for the whole sweep. -/
def InMemoryStore.DeleteExpired (c : InMemoryStore) (now : Time) : InMemoryStore :=
  c.lru.Keys.foldl (InMemoryStore.sweepKey now) c

/-! ## Keys of the cache layer (generic.go) -/

/-- A byte string printed with `%s`: one character per byte. -/
def bytesToString (b : Bytes) : String := String.mk (b.map Char.ofNat)

/-- The digit `hextable[n]` of `encoding/hex`, for `n < 16`. -/
def hexDigit (n : Nat) : Char :=
  if n < 10 then Char.ofNat (48 + n) else Char.ofNat (87 + n)

/-- The function `hex.EncodeToString`: two lower-case digits per byte, high nibble first. -/
def hexEncode (b : Bytes) : String :=
  String.mk (b.flatMap fun x => [hexDigit (x / 16 % 16), hexDigit (x % 16)])

/-- The function `entrySignature`: the hex text of the MAC of the entry under the secret. The
keyed hash (`crypto/hmac` over `crypto/sha256`) is a library routine and comes in as `hmac`,
applied to the key and then the message. -/
def entrySignature (hmac : Bytes → Bytes → Bytes) (entry secret : Bytes) : String :=
  hexEncode (hmac secret entry)

/-- The method `GenericCache.GetKey`: the test is `c.KeyPrefix != nil`, and `%s::%s` prints the
bytes of the key's first part, the separator and the signature. -/
def GenericCache.GetKey (c : GenericCache) (hmac : Bytes → Bytes → Bytes)
    (entryData : Bytes) : String :=
  match c.KeyPrefix with
  | some pfx => bytesToString pfx ++ "::" ++ entrySignature hmac entryData c.sharedSecret
  | none => entrySignature hmac entryData c.sharedSecret

/-! ## The remaining operations of GenericCache (generic.go) -/

/-- The constructor `NewCacheWithMultiPools`: a writable cache over the first pool that owns a
read-only cache over the second. -/
def NewCacheWithMultiPools (writeCachePool readCachePool : Option InMemoryStore)
    (cLevel : Int) (sharedSecret : Bytes) (expirySeconds : Int) (keyPrefix : Option Bytes)
    (encryptData : Bool) : GenericCache :=
  let c := NewCacheWithPool writeCachePool Writable cLevel sharedSecret expirySeconds keyPrefix
    encryptData
  { c with ReadCache := some (NewCacheWithPool readCachePool ReadOnly cLevel sharedSecret
      expirySeconds keyPrefix encryptData) }

/-- What `GenericCache.Increment` and `GenericCache.Decrement` hand back. -/
structure CacheCount where
  value : Nat
  err : Option CacheError
  cache : GenericCache

/-- What `GenericCache.Exists` hands back. -/
structure CacheFound where
  found : Bool
  entry : GenericCacheEntry
  err : Option CacheError
  cache : GenericCache

/-- The method `GenericCache.AddExistingEntry`. It asserts `c.Cache.(persistence.CacheStore)`
with no test for nil before it, and the assertion panics on a nil interface. -/
def GenericCache.AddExistingEntry (c : GenericCache) (now : Time) (key : String)
    (entry : GenericCacheEntry) (expiresAt : Int) : Run CacheWrite :=
  let expCacheAt := wrapInt64 (wrapInt64 (expiresAt - now.Unix) * Second)
  match c.Cache with
  | none => .panicked
  | some store =>
    let r := store.Set now key entry.toValue expCacheAt
    .returned { err := r.err, cache := { c with Cache := some r.store } }

/-- The method `GenericCache.Add`. -/
def GenericCache.Add (c : GenericCache) (now : Time) (key : String) (data : Value)
    (exp : Int) : CacheWrite :=
  match c.Cache with
  | none => { err := some (c.noCacheError "Add"), cache := c }
  | some store =>
    let t := if exp ≠ 0 then exp else c.DefaultExp
    let r := store.Add now key data t
    { err := r.err, cache := { c with Cache := some r.store } }

/-- The method `GenericCache.Delete`: a miss of the store comes back as generic.go's
`persistence.ErrCacheMiss`. -/
def GenericCache.Delete (c : GenericCache) (key : String) : CacheWrite :=
  match c.Cache with
  | none => { err := some (c.noCacheError "Delete"), cache := c }
  | some store =>
    let r := store.Delete key
    { err := r.err.map mapGetError, cache := { c with Cache := some r.store } }

/-- The method `GenericCache.Replace`. -/
def GenericCache.Replace (c : GenericCache) (now : Time) (key : String) (data : Value)
    (exp : Int) : CacheWrite :=
  match c.Cache with
  | none => { err := some (c.noCacheError "Replace"), cache := c }
  | some store =>
    let t := if exp ≠ 0 then exp else c.DefaultExp
    let r := store.Replace now key data t
    { err := r.err, cache := { c with Cache := some r.store } }

/-- The method `GenericCache.Increment`: on an error of the store the value handed back
is `0`. -/
def GenericCache.Increment (c : GenericCache) (key : String) (n : Nat) : CacheCount :=
  match c.Cache with
  | none => { value := 0, err := some (c.noCacheError "Increment"), cache := c }
  | some store =>
    let r := store.Increment key n
    let c1 : GenericCache := { c with Cache := some r.store }
    match r.err with
    | some err => { value := 0, err := some err, cache := c1 }
    | none => { value := r.value, err := none, cache := c1 }

/-- The method `GenericCache.Decrement`. -/
def GenericCache.Decrement (c : GenericCache) (key : String) (n : Nat) : CacheCount :=
  match c.Cache with
  | none => { value := 0, err := some (c.noCacheError "Decrement"), cache := c }
  | some store =>
    let r := store.Decrement key n
    let c1 : GenericCache := { c with Cache := some r.store }
    match r.err with
    | some err => { value := 0, err := some err, cache := c1 }
    | none => { value := r.value, err := none, cache := c1 }

/-- The method `GenericCache.Flush`. -/
def GenericCache.Flush (c : GenericCache) : CacheWrite :=
  match c.Cache with
  | none => { err := some (c.noCacheError "Flush"), cache := c }
  | some store => { err := none, cache := { c with Cache := some store.Flush.store } }

/-- The entry a `*GenericCacheEntry` destination points to; the zero entry for any other
destination. -/
def Dest.entry : Dest → GenericCacheEntry
  | .ptr (.entry data timeAdded expiresAt) =>
    { Data := data, TimeAdded := timeAdded, ExpiresAt := expiresAt }
  | _ => { Data := .nil, TimeAdded := 0, ExpiresAt := 0 }

/-- The method `GenericCache.Exists`. With a read-only cache the call is handed to it; without
one the cache reads the key into a zero entry with its own `Get`. The error for a nil store
carries the text of `Add`, as in the source. -/
def GenericCache.Exists (c : GenericCache) (cd : Codec) (now : Time) (key : String) :
    Run CacheFound :=
  match c with
  | ⟨cache, some rc, secret, defaultExp, cType, cLevel, keyPrefix, encryptData⟩ =>
    match rc.Exists cd now key with
    | .panicked => .panicked
    | .returned r =>
      .returned { found := r.found, entry := r.entry, err := r.err,
                  cache := ⟨cache, some r.cache, secret, defaultExp, cType, cLevel, keyPrefix,
                    encryptData⟩ }
  | ⟨none, none, secret, defaultExp, cType, cLevel, keyPrefix, encryptData⟩ =>
    let c0 : GenericCache :=
      ⟨none, none, secret, defaultExp, cType, cLevel, keyPrefix, encryptData⟩
    .returned { found := false, entry := { Data := .nil, TimeAdded := 0, ExpiresAt := 0 },
                err := some (c0.noCacheError "Add"), cache := c0 }
  | ⟨some store, none, secret, defaultExp, cType, cLevel, keyPrefix, encryptData⟩ =>
    let c0 : GenericCache :=
      ⟨some store, none, secret, defaultExp, cType, cLevel, keyPrefix, encryptData⟩
    match c0.Get cd now key (.ptr (.entry .nil 0 0)) with
    | .panicked => .panicked
    | .returned r =>
      match r.err with
      | some err => .returned { found := false, entry := r.dest.entry, err := some err,
                                cache := r.cache }
      | none => .returned { found := true, entry := r.dest.entry, err := none,
                            cache := r.cache }

/-- The destination types `GenericCache.Get` has a case for: pointers to `ResponseCache`, to
`GenericCacheEntry`, to a string, to an integer of any width and to a `float64`, and plain
integers of any width. -/
def getDispatches : GoType → Bool
  | .ptr .ResponseCache => true
  | .ptr .GenericCacheEntry => true
  | .ptr .string => true
  | .ptr .int => true
  | .ptr (.num _) => true
  | .int => true
  | .num _ => true
  | .ptr .float64 => true
  | _ => false

/-! ## Reading the clock against a stamp -/

/-- The method `time.Time.UnixNano`: nanoseconds since the epoch. -/
def Time.UnixNano (t : Time) : Int := t.sec * 1000000000 + t.nsec.val

/-- The instant is not after `time.Unix(stamp, 0)`, a zero stamp standing for no limit: what
keeps an entry stamped `ExpiresAt = stamp` readable. For a stamp up to
`MaxInt64 - unixToInternal` the bound is unix second `stamp` itself. -/
def stampLive (stamp : Int) (t : Time) : Prop :=
  stamp = 0 ∨ t.seconds ≤ (Time.ofUnix stamp).seconds

/-- The payload types `InMemoryStore.Get` copies into a destination of the same type: string,
int and `ResponseCache`. -/
def servedAsIs (t : GoType) : Prop :=
  t = .string ∨ t = .int ∨ t = .ResponseCache

/-- What `doAddSet` stores for a value: the `Data` of an entry wrapper, any other value as it
is. -/
def storedData : Value → Value
  | .entry data _ _ => data
  | v => v

/-- What the cache layer relies on from the block mode: decrypting under the key and IV of the
encryption gives the input back, and the mode writes as many bytes as it reads. -/
def Codec.cbcLawful (cd : Codec) : Prop :=
  (∀ key iv data, cd.cbcDecrypt key iv (cd.cbcEncrypt key iv data) = data) ∧
  (∀ key iv data, (cd.cbcEncrypt key iv data).length = data.length)

/-- The duration `GenericCache.Set` hands to the store: the caller's, or the cache's default
for a zero one. -/
def GenericCache.storeExp (c : GenericCache) (exp : Int) : Int :=
  if exp ≠ 0 then exp else c.DefaultExp

/-! ## Sample inputs for the concrete evaluations -/

/-- An empty store of capacity two whose default expiry is one hour. -/
def sampleStore : InMemoryStore :=
  { lru := { size := 2, items := [] }, DefaultExp := 3600 * Second }

/-- A store in which `"int"` holds an entry stamped to expire at unix second 101. -/
def staleStore : InMemoryStore :=
  { lru := { size := 2, items := [("int", { Data := .int 1, TimeAdded := 100, ExpiresAt := 101 })] },
    DefaultExp := 3600 * Second }

/-- A store in which `"int"` holds an entry that never expires. -/
def liveStore : InMemoryStore :=
  { lru := { size := 2, items := [("int", { Data := .int 1, TimeAdded := 10, ExpiresAt := 0 })] },
    DefaultExp := 3600 * Second }

/-- A stand-in for the library routines: byte reversal as the cipher and the character codes
of a string as its encoding. -/
def sampleCodec : Codec :=
  { cbcEncrypt := fun _ _ d => d.reverse
    cbcDecrypt := fun _ _ d => d.reverse
    gobEncode := fun v =>
      match v with
      | .string s => some (s.toList.map Char.toNat)
      | _ => none
    gobDecode := fun b => some (.string (String.mk (b.map Char.ofNat))) }

/-- The sixteen bytes of the secret `"test-secret-must"` of the tests. -/
def sampleSecret : Bytes :=
  [116, 101, 115, 116, 45, 115, 101, 99, 114, 101, 116, 45, 109, 117, 115, 116]

/-- A writable cache over the sample store, as `NewCacheWithPool` builds it. -/
def sampleCache (encryptData : Bool) : GenericCache :=
  NewCacheWithPool (some sampleStore) Writable L2 sampleSecret 0 (some [116, 101, 115, 116])
    encryptData

/-- A cache built by `NewCacheWithPool` with a nil pool. -/
def nilCache : GenericCache :=
  NewCacheWithPool none Writable L1 sampleSecret 0 none false

/-- A cache built by `NewCacheWithMultiPools` over two stores: under `"k"` the write pool
holds `"primary"` and the read pool holds `"replica"`, neither with an expiry. -/
def twoPoolCache : GenericCache :=
  NewCacheWithMultiPools (some (sampleStore.Set ⟨10, 0⟩ "k" (.string "primary") FOREVER).store)
    (some (sampleStore.Set ⟨10, 0⟩ "k" (.string "replica") FOREVER).store) L2 sampleSecret 0
    (some [116, 101, 115, 116]) false

/-- A stand-in for the keyed hash: the first 32 bytes of key and message. -/
def sampleMac : Bytes → Bytes → Bytes := fun key msg => (key ++ msg).take 32

/-! ## Lemmas on the bounded map -/

@[simp] theorem lookupKey_nil (k : String) : lookupKey k [] = none := rfl

@[simp] theorem lookupKey_cons_self (k : String) (e : GenericCacheEntry)
    (l : List (String × GenericCacheEntry)) : lookupKey k ((k, e) :: l) = some e := by
  simp [lookupKey]

theorem lookupKey_cons_ne {k k' : String} (h : k' ≠ k) (e : GenericCacheEntry)
    (l : List (String × GenericCacheEntry)) :
    lookupKey k ((k', e) :: l) = lookupKey k l := by
  simp [lookupKey, h]

theorem lookupKey_removeKey_self (k : String) (l : List (String × GenericCacheEntry)) :
    lookupKey k (removeKey k l) = none := by
  induction l with
  | nil => rfl
  | cons p rest ih =>
    obtain ⟨k', e⟩ := p
    by_cases h : k' = k
    · subst h
      simpa [removeKey] using ih
    · have : removeKey k ((k', e) :: rest) = (k', e) :: removeKey k rest := by
        simp [removeKey, h]
      rw [this, lookupKey_cons_ne h]
      exact ih

theorem lookupKey_removeKey_ne {k k' : String} (h : k' ≠ k)
    (l : List (String × GenericCacheEntry)) :
    lookupKey k' (removeKey k l) = lookupKey k' l := by
  induction l with
  | nil => rfl
  | cons p rest ih =>
    obtain ⟨k'', e⟩ := p
    by_cases hk : k'' = k
    · subst hk
      have h1 : removeKey k'' ((k'', e) :: rest) = removeKey k'' rest := by
        simp [removeKey]
      rw [h1, ih, lookupKey_cons_ne (Ne.symm h)]
    · have h1 : removeKey k ((k'', e) :: rest) = (k'', e) :: removeKey k rest := by
        simp [removeKey, hk]
      rw [h1]
      by_cases hk' : k'' = k'
      · subst hk'
        simp
      · rw [lookupKey_cons_ne hk', lookupKey_cons_ne hk', ih]

theorem lookupKey_eq_none_iff (k : String) (l : List (String × GenericCacheEntry)) :
    lookupKey k l = none ↔ k ∉ l.map Prod.fst := by
  induction l with
  | nil => simp
  | cons p rest ih =>
    obtain ⟨k', e⟩ := p
    by_cases h : k' = k
    · subst h
      simp
    · rw [lookupKey_cons_ne h, ih]
      simp [Ne.symm h]

theorem removeKey_of_not_mem {k : String} {l : List (String × GenericCacheEntry)}
    (h : k ∉ l.map Prod.fst) : removeKey k l = l := by
  unfold removeKey
  rw [List.filter_eq_self]
  intro p hp
  have : p.1 ≠ k := by
    intro hpk
    exact h (by simpa [hpk] using List.mem_map_of_mem Prod.fst hp)
  simpa using this

theorem keys_removeKey (k : String) (l : List (String × GenericCacheEntry)) :
    k ∉ (removeKey k l).map Prod.fst := by
  rw [← lookupKey_eq_none_iff]
  exact lookupKey_removeKey_self k l

theorem removeKey_sublist (k : String) (l : List (String × GenericCacheEntry)) :
    ((removeKey k l).map Prod.fst).Sublist (l.map Prod.fst) := by
  unfold removeKey
  exact (List.filter_sublist l).map Prod.fst

theorem nodup_removeKey {k : String} {l : List (String × GenericCacheEntry)}
    (h : (l.map Prod.fst).Nodup) : ((removeKey k l).map Prod.fst).Nodup :=
  h.sublist (removeKey_sublist k l)

theorem length_removeKey_le (k : String) (l : List (String × GenericCacheEntry)) :
    (removeKey k l).length ≤ l.length := by
  unfold removeKey
  exact List.length_filter_le _ l

theorem length_removeKey_of_mem {k : String} {l : List (String × GenericCacheEntry)}
    (hn : (l.map Prod.fst).Nodup) (hm : k ∈ l.map Prod.fst) :
    (removeKey k l).length + 1 = l.length := by
  induction l with
  | nil => simp at hm
  | cons p rest ih =>
    obtain ⟨k', e⟩ := p
    simp only [List.map_cons, List.nodup_cons] at hn
    by_cases h : k' = k
    · subst h
      have h1 : removeKey k' ((k', e) :: rest) = removeKey k' rest := by
        simp [removeKey]
      rw [h1, removeKey_of_not_mem hn.1]
      simp
    · have h1 : removeKey k ((k', e) :: rest) = (k', e) :: removeKey k rest := by
        simp [removeKey, h]
      have hm' : k ∈ rest.map Prod.fst := by
        simp only [List.map_cons, List.mem_cons] at hm
        rcases hm with hm | hm
        · exact absurd hm.symm h
        · exact hm
      rw [h1]
      simp only [List.length_cons]
      rw [ih hn.2 hm']

/-! ## Lemmas on the cache operations -/

theorem wrapInt64_of_isInt64 {x : Int} (h : isInt64 x) : wrapInt64 x = x := by
  unfold isInt64 at h
  unfold wrapInt64
  norm_num at h ⊢
  omega

theorem ARCCache.Get_fst (c : ARCCache) (k : String) : (c.Get k).1 = lookupKey k c.items := by
  unfold ARCCache.Get
  cases h : lookupKey k c.items <;> simp

theorem ARCCache.Get_lookup (c : ARCCache) (k k' : String) :
    lookupKey k' (c.Get k).2.items = lookupKey k' c.items := by
  unfold ARCCache.Get
  cases h : lookupKey k c.items with
  | none => simp
  | some e =>
    simp only
    by_cases hk : k = k'
    · subst hk
      simp [h]
    · rw [lookupKey_cons_ne hk, lookupKey_removeKey_ne (Ne.symm hk)]

theorem ARCCache.Get_size (c : ARCCache) (k : String) : (c.Get k).2.size = c.size := by
  unfold ARCCache.Get
  cases h : lookupKey k c.items <;> simp

theorem ARCCache.Get_items_of_some {c : ARCCache} {k : String} {e : GenericCacheEntry}
    (h : lookupKey k c.items = some e) :
    c.Get k = (some e, { c with items := (k, e) :: removeKey k c.items }) := by
  unfold ARCCache.Get
  simp [h]

theorem ARCCache.Get_of_none {c : ARCCache} {k : String}
    (h : lookupKey k c.items = none) : c.Get k = (none, c) := by
  unfold ARCCache.Get
  simp [h]

theorem mem_keys_of_lookupKey {k : String} {e : GenericCacheEntry}
    {l : List (String × GenericCacheEntry)} (h : lookupKey k l = some e) :
    k ∈ l.map Prod.fst := by
  by_contra hn
  rw [← lookupKey_eq_none_iff] at hn
  rw [hn] at h
  exact Option.noConfusion h

theorem ARCCache.Get_WF {c : ARCCache} (h : c.WF) (k : String) : (c.Get k).2.WF := by
  cases hl : lookupKey k c.items with
  | none => rw [ARCCache.Get_of_none hl]; exact h
  | some e =>
    rw [ARCCache.Get_items_of_some hl]
    obtain ⟨h1, h2, h3⟩ := h
    refine ⟨h1, ?_, ?_⟩
    · have := length_removeKey_of_mem h3 (mem_keys_of_lookupKey hl)
      simp only [List.length_cons]
      omega
    · simp only [List.map_cons, List.nodup_cons]
      exact ⟨keys_removeKey k c.items, nodup_removeKey h3⟩

theorem ARCCache.Add_lookup_self (c : ARCCache) (k : String) (e : GenericCacheEntry) :
    lookupKey k (c.Add k e).items = some e := by
  unfold ARCCache.Add
  split
  · simp
  · split <;> simp

theorem ARCCache.Add_lookup_of_present {c : ARCCache} {k : String}
    (hp : (lookupKey k c.items).isSome = true) (e : GenericCacheEntry) {k' : String}
    (hk : k' ≠ k) : lookupKey k' (c.Add k e).items = lookupKey k' c.items := by
  unfold ARCCache.Add
  rw [if_pos hp]
  simp only
  rw [lookupKey_cons_ne (Ne.symm hk), lookupKey_removeKey_ne hk]

theorem ARCCache.Add_WF {c : ARCCache} (h : c.WF) (k : String) (e : GenericCacheEntry) :
    (c.Add k e).WF := by
  obtain ⟨h1, h2, h3⟩ := h
  unfold ARCCache.Add
  split
  · rename_i hp
    obtain ⟨e0, he0⟩ := Option.isSome_iff_exists.mp hp
    refine ⟨h1, ?_, ?_⟩
    · have := length_removeKey_of_mem h3 (mem_keys_of_lookupKey he0)
      simp only [List.length_cons]
      omega
    · simp only [List.map_cons, List.nodup_cons]
      exact ⟨keys_removeKey k c.items, nodup_removeKey h3⟩
  · rename_i hp
    have hnone : lookupKey k c.items = none := by
      cases hl : lookupKey k c.items with
      | none => rfl
      | some e0 => simp [hl] at hp
    have hnot : k ∉ c.items.map Prod.fst := (lookupKey_eq_none_iff k c.items).mp hnone
    split
    · refine ⟨h1, ?_, ?_⟩
      · simp only [List.length_cons, List.length_dropLast]
        omega
      · simp only [List.map_cons, List.nodup_cons]
        have hsub : (c.items.dropLast.map Prod.fst).Sublist (c.items.map Prod.fst) :=
          (List.dropLast_sublist c.items).map Prod.fst
        exact ⟨fun hm => hnot (hsub.subset hm), h3.sublist hsub⟩
    · rename_i hlen
      refine ⟨h1, ?_, ?_⟩
      · simp only [List.length_cons]
        omega
      · simp only [List.map_cons, List.nodup_cons]
        exact ⟨hnot, h3⟩

theorem ARCCache.Remove_WF {c : ARCCache} (h : c.WF) (k : String) : (c.Remove k).WF := by
  obtain ⟨h1, h2, h3⟩ := h
  exact ⟨h1, le_trans (length_removeKey_le k c.items) h2, nodup_removeKey h3⟩

theorem removeKey_cons_self (k : String) (e : GenericCacheEntry)
    (l : List (String × GenericCacheEntry)) :
    removeKey k ((k, e) :: l) = removeKey k l := by
  simp [removeKey]

theorem removeKey_idem (k : String) (l : List (String × GenericCacheEntry)) :
    removeKey k (removeKey k l) = removeKey k l :=
  removeKey_of_not_mem (keys_removeKey k l)

/-! ## Expiry (C4, C5, C6) -/

theorem Time.ofUnix_of_fits {stamp : Int} (h : isInt64 (stamp + unixToInternal)) :
    Time.ofUnix stamp = { sec := stamp, nsec := 0 } := by
  unfold Time.ofUnix
  rw [wrapInt64_of_isInt64 h]
  simp

theorem Expired_eq_stamp (e : GenericCacheEntry) (now : Time) :
    e.Expired now = true ↔
      e.ExpiresAt ≠ 0 ∧ ((Time.ofUnix e.ExpiresAt).sec < now.sec ∨
        ((Time.ofUnix e.ExpiresAt).sec = now.sec ∧ 0 < now.nsec.val)) := by
  unfold GenericCacheEntry.Expired Time.Before
  have hn : (Time.ofUnix e.ExpiresAt).nsec = 0 := rfl
  by_cases h0 : e.ExpiresAt = 0
  · simp [h0]
  · simp only [h0, if_false, ne_eq, not_false_eq_true, true_and, Bool.or_eq_true,
      Bool.and_eq_true, decide_eq_true_eq, hn]
    constructor
    · rintro (h | ⟨h1, h2⟩)
      · exact Or.inl h
      · exact Or.inr ⟨h1, by simpa [Fin.lt_def] using h2⟩
    · rintro (h | ⟨h1, h2⟩)
      · exact Or.inl h
      · exact Or.inr ⟨h1, by simpa [Fin.lt_def] using h2⟩

theorem Time.seconds_lt_iff (t now : Time) (ht : t.nsec = 0) :
    t.seconds < now.seconds ↔ t.sec < now.sec ∨ (t.sec = now.sec ∧ 0 < now.nsec.val) := by
  have hlt : ((now.nsec.val : ℕ) : ℚ) < 1000000000 := by exact_mod_cast now.nsec.isLt
  have hnn : (0 : ℚ) ≤ ((now.nsec.val : ℕ) : ℚ) := by exact_mod_cast Nat.zero_le _
  have hfrac : ((now.nsec.val : ℕ) : ℚ) / 1000000000 < 1 := by
    rw [div_lt_one (by norm_num)]
    exact hlt
  have hfrac0 : (0 : ℚ) ≤ ((now.nsec.val : ℕ) : ℚ) / 1000000000 := by positivity
  unfold Time.seconds
  rw [ht]
  simp only [Fin.val_zero, Nat.cast_zero, zero_div, add_zero]
  constructor
  · intro h
    rcases lt_trichotomy t.sec now.sec with hlt' | heq | hgt
    · exact Or.inl hlt'
    · right
      refine ⟨heq, ?_⟩
      by_contra hz
      have hz' : now.nsec.val = 0 := by omega
      rw [heq, hz'] at h
      simp at h
    · exfalso
      have h1 : now.sec + 1 ≤ t.sec := hgt
      have h2 : ((now.sec : ℚ) + 1) ≤ (t.sec : ℚ) := by exact_mod_cast h1
      linarith
  · rintro (h | ⟨h1, h2⟩)
    · have : (t.sec : ℚ) < (now.sec : ℚ) := by exact_mod_cast h
      linarith
    · have hpos : (0 : ℚ) < ((now.nsec.val : ℕ) : ℚ) := by exact_mod_cast h2
      have : (0 : ℚ) < ((now.nsec.val : ℕ) : ℚ) / 1000000000 := by positivity
      rw [h1]
      linarith

theorem Expired_iff_seconds (e : GenericCacheEntry) (now : Time) :
    e.Expired now = true ↔
      e.ExpiresAt ≠ 0 ∧ (Time.ofUnix e.ExpiresAt).seconds < now.seconds := by
  rw [Expired_eq_stamp, Time.seconds_lt_iff _ _ rfl]

theorem not_Expired_of_stampLive {e : GenericCacheEntry} {now : Time}
    (h : stampLive e.ExpiresAt now) : e.Expired now = false := by
  cases hx : e.Expired now with
  | false => rfl
  | true =>
    exfalso
    obtain ⟨h0, hlt⟩ := (Expired_iff_seconds e now).mp hx
    rcases h with h | h
    · exact h0 h
    · linarith

theorem stampLive_of_fits {stamp : Int} {t : Time} (hf : isInt64 (stamp + unixToInternal))
    (h : stamp = 0 ∨ t.seconds ≤ (stamp : ℚ)) : stampLive stamp t := by
  unfold stampLive
  rw [Time.ofUnix_of_fits hf]
  rcases h with h | h
  · exact Or.inl h
  · right
    simpa [Time.seconds] using h

/-- C6, counterexample: an entry stamped 101 is expired one nanosecond into unix second 101,
where `ExpiresAt < now` fails for `now` in unix seconds (101 is not below 101); and an entry
stamped `MaxInt64` is expired at second 1000, since `time.Unix` keeps
`ExpiresAt + 62135596800` in an `int64` and the sum wraps to an instant long past. -/
theorem Expired_not_iff_whole_seconds :
    GenericCacheEntry.Expired { Data := .int 1, TimeAdded := 100, ExpiresAt := 101 }
      ⟨101, 1⟩ = true ∧
    ¬ ((101 : Int) ≠ 0 ∧ (101 : Int) < (Time.mk 101 1).Unix) ∧
    GenericCacheEntry.Expired
      { Data := .int 1, TimeAdded := 100, ExpiresAt := 9223372036854775807 } ⟨1000, 0⟩ = true ∧
    ¬ ((9223372036854775807 : Int) ≠ 0 ∧ (9223372036854775807 : Int) < (Time.mk 1000 0).Unix) := by
  decide

/-- C6, amended: for every entry and every clock reading, `Expired()` is true if and only if
`ExpiresAt != 0` and the instant `time.Unix(ExpiresAt, 0)` is before the clock reading, at the
clock's nanosecond resolution. For `ExpiresAt` up to `MaxInt64 - 62135596800`, where
`time.Unix` does not overflow, that is: `ExpiresAt` is below the current instant in seconds
since the epoch, fraction included; in whole seconds, `ExpiresAt` is before the clock's unix
second, or equals it while the clock shows a non-zero fraction of a second. -/
theorem Expired_iff (e : GenericCacheEntry) (now : Time) :
    (e.Expired now = true ↔
      e.ExpiresAt ≠ 0 ∧ (Time.ofUnix e.ExpiresAt).seconds < now.seconds) ∧
    (isInt64 (e.ExpiresAt + unixToInternal) →
      (e.Expired now = true ↔ e.ExpiresAt ≠ 0 ∧ (e.ExpiresAt : ℚ) < now.seconds) ∧
      (e.Expired now = true ↔
        e.ExpiresAt ≠ 0 ∧
          (e.ExpiresAt < now.Unix ∨ (e.ExpiresAt = now.Unix ∧ 0 < now.nsec.val)))) := by
  refine ⟨Expired_iff_seconds e now, fun hf => ?_⟩
  have hof := Time.ofUnix_of_fits hf
  constructor
  · rw [Expired_iff_seconds, hof]
    simp [Time.seconds]
  · rw [Expired_eq_stamp, hof]
    rfl

/-- C6 (amended) at concrete inputs: stamped 101, an entry is expired one nanosecond into unix
second 101 and not at 101 s sharp; stamped 0 it is never expired. -/
theorem Expired_iff_witness :
    GenericCacheEntry.Expired { Data := .int 1, TimeAdded := 100, ExpiresAt := 101 } ⟨101, 1⟩ =
      true ∧
    ¬ GenericCacheEntry.Expired { Data := .int 1, TimeAdded := 100, ExpiresAt := 101 }
      ⟨101, 0⟩ = true ∧
    ¬ GenericCacheEntry.Expired { Data := .int 1, TimeAdded := 100, ExpiresAt := 0 }
      ⟨101, 1⟩ = true :=
  ⟨((Expired_iff _ _).2 (by decide)).2.mpr ⟨by decide, Or.inr ⟨rfl, by decide⟩⟩,
   fun h => absurd (((Expired_iff _ _).2 (by decide)).2.mp h).2 (by decide),
   fun h => absurd (((Expired_iff _ _).2 (by decide)).2.mp h).1 (by decide)⟩

/-- C4: when key `k` holds an entry that is expired at the clock reading, `Get` returns
`ErrCacheMiss`, leaves the destination as it was and removes `k`: the key is gone from
`Keys()`, nothing is resident under it and `Len()` has dropped by one. No sweep is involved. -/
theorem Get_expired_evicts (c : InMemoryStore) (hwf : c.WF) (now : Time) (k : String)
    (dest : Dest) (e : GenericCacheEntry) (hk : c.entryAt k = some e)
    (hexp : e.Expired now = true) :
    ∃ c', c.Get now k dest = .returned { err := some .ErrCacheMiss, dest := dest, store := c' } ∧
      k ∉ c'.Keys ∧ c'.entryAt k = none ∧ c'.Len + 1 = c.Len ∧ c'.WF := by
  unfold InMemoryStore.entryAt at hk
  refine ⟨{ c with lru := { c.lru with items := removeKey k c.lru.items } }, ?_, ?_, ?_, ?_, ?_⟩
  · unfold InMemoryStore.Get
    rw [ARCCache.Get_items_of_some hk]
    simp only [hexp, if_true, ARCCache.Remove, removeKey_cons_self, removeKey_idem]
  · simp only [InMemoryStore.Keys, ARCCache.Keys, List.mem_reverse]
    exact keys_removeKey k c.lru.items
  · exact lookupKey_removeKey_self k c.lru.items
  · simp only [InMemoryStore.Len, ARCCache.Len]
    exact length_removeKey_of_mem hwf.2.2 (mem_keys_of_lookupKey hk)
  · exact ARCCache.Remove_WF hwf k

/-- C4 at a concrete input: `"int"` stamped 101 is read at unix second 102. -/
theorem Get_expired_evicts_witness :
    ∃ c', (InMemoryStore.mk ⟨2, [("int", ⟨.int 777, 100, 101⟩)]⟩ Second).Get ⟨102, 0⟩ "int"
        (.ptr (.int 0)) =
        .returned { err := some .ErrCacheMiss, dest := .ptr (.int 0), store := c' } ∧
      "int" ∉ c'.Keys ∧ c'.entryAt "int" = none ∧
      c'.Len + 1 = (InMemoryStore.mk ⟨2, [("int", ⟨.int 777, 100, 101⟩)]⟩ Second).Len ∧ c'.WF :=
  Get_expired_evicts _ (by decide) ⟨102, 0⟩ "int" (.ptr (.int 0)) ⟨.int 777, 100, 101⟩
    (by decide) (by decide)

theorem tdiv_mul_Second (s : Int) : Int.tdiv (s * Second) Second = s := by
  unfold Second
  exact Int.mul_tdiv_cancel s (by norm_num)

theorem storedData_scalar {v : Value} (h : servedAsIs v.typeOf) : storedData v = v := by
  cases v <;> simp [servedAsIs, Value.typeOf] at h <;> rfl

theorem doAddSet_stored (c : InMemoryStore) (now : Time) (k : String) (v : Value)
    (exp : Int) :
    (c.doAddSet now k v exp).err = none ∧
    (c.doAddSet now k v exp).store.entryAt k =
      some { Data := storedData v, TimeAdded := now.Unix,
             ExpiresAt := expiryStamp c.DefaultExp now.Unix exp } ∧
    (c.doAddSet now k v exp).store.DefaultExp = c.DefaultExp := by
  unfold InMemoryStore.doAddSet InMemoryStore.entryAt
  cases v <;> simp [ARCCache.Add_lookup_self, storedData]

/-- C5: `Set(k, v, ttl)` run at unix second `now` returns nil and stores under `k` an entry
with `TimeAdded = now` and with `ExpiresAt = 0` for `ttl = FOREVER`, `ExpiresAt = now +
DefaultExp` in whole seconds for `ttl = 0`, and `ExpiresAt = now + s` for a positive ttl of
`s` whole seconds; the sums are `int64` sums, hence the exact ones whenever those fit. -/
theorem Set_stamps (c : InMemoryStore) (now : Time) (k : String) (v : Value) (ttl : Int) :
    (c.Set now k v ttl).err = none ∧
    ∃ e, (c.Set now k v ttl).store.entryAt k = some e ∧ e.TimeAdded = now.Unix ∧
      (ttl = FOREVER → e.ExpiresAt = 0) ∧
      (ttl = 0 →
        e.ExpiresAt = wrapInt64 (now.Unix + Int.tdiv c.DefaultExp Second) ∧
        (isInt64 (now.Unix + Int.tdiv c.DefaultExp Second) →
          e.ExpiresAt = now.Unix + Int.tdiv c.DefaultExp Second)) ∧
      (∀ s : Int, 0 < s → ttl = s * Second →
        e.ExpiresAt = wrapInt64 (now.Unix + s) ∧
        (isInt64 (now.Unix + s) → e.ExpiresAt = now.Unix + s)) := by
  obtain ⟨herr, hd, -⟩ := doAddSet_stored c now k v ttl
  refine ⟨herr, _, hd, rfl, ?_, ?_, ?_⟩
  · intro h
    simp [expiryStamp, h]
  · intro h
    have h0 : (0 : Int) ≠ FOREVER := by decide
    have hst : expiryStamp c.DefaultExp now.Unix ttl =
        wrapInt64 (now.Unix + Int.tdiv c.DefaultExp Second) := by
      simp only [expiryStamp, h, h0, if_false, ne_eq, not_true_eq_false]
    exact ⟨hst, fun hr => hst.trans (wrapInt64_of_isInt64 hr)⟩
  · intro s hs h
    have h1 : ttl ≠ FOREVER := by
      rw [h]; unfold Second FOREVER; omega
    have h2 : ttl ≠ 0 := by
      rw [h]; unfold Second; omega
    have hst : expiryStamp c.DefaultExp now.Unix ttl = wrapInt64 (now.Unix + s) := by
      simp only [expiryStamp, h1, h2, if_false, ne_eq, not_false_eq_true, if_true]
      rw [h, tdiv_mul_Second]
    exact ⟨hst, fun hr => hst.trans (wrapInt64_of_isInt64 hr)⟩

/-- C5 at a concrete input: a `Set` for three seconds at unix second 10 stamps 13. -/
theorem Set_stamps_witness :
    ∃ e, (sampleStore.Set ⟨10, 0⟩ "k" (.string "foo") (3 * Second)).store.entryAt "k" = some e ∧
      e.TimeAdded = 10 ∧ e.ExpiresAt = 13 :=
  match Set_stamps sampleStore ⟨10, 0⟩ "k" (.string "foo") (3 * Second) with
  | ⟨_, e, h1, h2, _, _, h5⟩ => ⟨e, h1, h2, (h5 3 (by decide) rfl).2 (by decide)⟩

/-! ## Reading a live entry -/

theorem Get_live_scalar {c : InMemoryStore} {now : Time} {k : String} {e : GenericCacheEntry}
    (hk : c.entryAt k = some e) (hl : e.Expired now = false) (old : Value)
    (hty : servedAsIs e.Data.typeOf) (hold : old.typeOf = e.Data.typeOf) :
    c.Get now k (.ptr old) =
      .returned { err := none, dest := .ptr e.Data,
                  store := { c with lru := (c.lru.Get k).2 } } := by
  unfold InMemoryStore.entryAt at hk
  unfold InMemoryStore.Get
  rw [ARCCache.Get_items_of_some hk]
  obtain ⟨d, ta, ea⟩ := e
  rcases hty with hty | hty | hty
  · cases d <;> simp [Value.typeOf] at hty
    cases old <;> simp [Value.typeOf] at hold
    simp [hl, Dest.typeOf, Value.typeOf, Dest.assign]
  · cases d <;> simp [Value.typeOf] at hty
    cases old <;> simp [Value.typeOf] at hold
    simp [hl, Dest.typeOf, Value.typeOf, Dest.assign]
  · cases d <;> simp [Value.typeOf] at hty
    cases old <;> simp [Value.typeOf] at hold
    simp [hl, Dest.typeOf, Value.typeOf, Dest.assign]

theorem Get_live_entry {c : InMemoryStore} {now : Time} {k : String} {e : GenericCacheEntry}
    (hk : c.entryAt k = some e) (hl : e.Expired now = false) (old : GenericCacheEntry) :
    c.Get now k (.ptr old.toValue) =
      .returned { err := none, dest := .ptr e.toValue,
                  store := { c with lru := (c.lru.Get k).2 } } := by
  unfold InMemoryStore.entryAt at hk
  unfold InMemoryStore.Get
  rw [ARCCache.Get_items_of_some hk]
  simp [hl, Dest.typeOf, Value.typeOf, Dest.assign, GenericCacheEntry.toValue]

theorem Get_stale {c : InMemoryStore} {now : Time} {k : String} {e : GenericCacheEntry}
    (hk : c.entryAt k = some e) (hx : e.Expired now = true) (dest : Dest) :
    c.Get now k dest =
      .returned { err := some .ErrCacheMiss, dest := dest,
                  store := { c with lru := c.lru.Remove k } } := by
  unfold InMemoryStore.entryAt at hk
  unfold InMemoryStore.Get
  rw [ARCCache.Get_items_of_some hk]
  simp [hx, ARCCache.Remove, removeKey_cons_self, removeKey_idem]

/-! ## Round trip through the in-process store (C1) -/

/-- C1, counterexample: a string is set with a ttl of 500 ms at 10.2 s and read 100 ms later,
well inside the ttl; the stamp is unix second 10, which the clock has passed, and `Get`
returns `ErrCacheMiss` and leaves the destination empty. -/
theorem Set_Get_inside_ttl_misses :
    (0 : Int) < 500000000 ∧
    (Time.mk 10 300000000).UnixNano - (Time.mk 10 200000000).UnixNano < 500000000 ∧
    (sampleStore.Set ⟨10, 200000000⟩ "value" (.string "foo") 500000000).err = none ∧
    (sampleStore.Set ⟨10, 200000000⟩ "value" (.string "foo") 500000000).store.Get
        ⟨10, 300000000⟩ "value" (.ptr (.string "")) =
      .returned { err := some .ErrCacheMiss, dest := .ptr (.string ""),
                  store := sampleStore } := by
  decide

/-- C1, amended: for every store, key and ttl, `Set(k, v, ttl)` followed by a `Get` whose
clock reading is not after the stamp that `Set` stored (unix second of the `Set` plus the
whole seconds of the ttl, `DefaultExp` for a zero ttl, no limit for `FOREVER`) returns nil;
a string or int `v` read into a destination of the same type comes back as `out == v`, and an
entry wrapper read into an entry comes back with `Data` equal to `v.Data`. -/
theorem Set_Get_roundtrip (c : InMemoryStore) (tSet tGet : Time) (k : String) (v : Value)
    (ttl : Int) (hlive : stampLive (expiryStamp c.DefaultExp tSet.Unix ttl) tGet) :
    (c.Set tSet k v ttl).err = none ∧
    (∀ old : Value, servedAsIs v.typeOf → old.typeOf = v.typeOf →
      ∃ c', (c.Set tSet k v ttl).store.Get tGet k (.ptr old) =
        .returned { err := none, dest := .ptr v, store := c' }) ∧
    (∀ (data : Value) (ta ea : Int) (old : GenericCacheEntry), v = .entry data ta ea →
      ∃ (c' : InMemoryStore) (out : GenericCacheEntry), (c.Set tSet k v ttl).store.Get tGet k (.ptr old.toValue) =
        .returned { err := none, dest := .ptr out.toValue, store := c' } ∧
        out.Data = data) := by
  obtain ⟨herr, hst, -⟩ := doAddSet_stored c tSet k v ttl
  have hl : GenericCacheEntry.Expired
      { Data := storedData v, TimeAdded := tSet.Unix,
        ExpiresAt := expiryStamp c.DefaultExp tSet.Unix ttl } tGet = false :=
    not_Expired_of_stampLive hlive
  refine ⟨herr, ?_, ?_⟩
  · intro old hty hold
    have hsd := storedData_scalar hty
    have := Get_live_scalar hst hl old (by simpa [hsd] using hty) (by simpa [hsd] using hold)
    exact ⟨_, by simpa [hsd, InMemoryStore.Set] using this⟩
  · intro data ta ea old hv
    subst hv
    exact ⟨_, _, Get_live_entry hst hl old, rfl⟩

/-- C1 (amended) at a concrete input: set at 10.2 s for three seconds, read at 13 s sharp. -/
theorem Set_Get_roundtrip_witness :
    stampLive (expiryStamp sampleStore.DefaultExp (Time.mk 10 200000000).Unix (3 * Second))
      ⟨13, 0⟩ ∧
    ∃ c', (sampleStore.Set ⟨10, 200000000⟩ "value" (.string "foo") (3 * Second)).store.Get
        ⟨13, 0⟩ "value" (.ptr (.string "")) =
      .returned { err := none, dest := .ptr (.string "foo"), store := c' } :=
  have h : stampLive (expiryStamp sampleStore.DefaultExp (Time.mk 10 200000000).Unix
      (3 * Second)) ⟨13, 0⟩ := by
    have hs : expiryStamp sampleStore.DefaultExp (Time.mk 10 200000000).Unix (3 * Second) = 13 := by
      decide
    rw [hs]
    exact stampLive_of_fits (by decide) (by norm_num [Time.seconds])
  ⟨h, (Set_Get_roundtrip sampleStore ⟨10, 200000000⟩ ⟨13, 0⟩ "value" (.string "foo")
    (3 * Second) h).2.1 (.string "") (Or.inl rfl) rfl⟩

/-! ## Add and Replace (C8, C9, C10) -/

theorem Add_present {c : InMemoryStore} {k : String} {e0 : GenericCacheEntry}
    (hk : c.entryAt k = some e0) (now : Time) (v : Value) (ttl : Int) :
    c.Add now k v ttl =
      { err := some .ErrNotStored, store := { c with lru := (c.lru.Get k).2 } } := by
  unfold InMemoryStore.entryAt at hk
  unfold InMemoryStore.Add
  rw [ARCCache.Get_items_of_some hk]

theorem Add_absent {c : InMemoryStore} {k : String} (hk : c.entryAt k = none) (now : Time)
    (v : Value) (ttl : Int) : c.Add now k v ttl = c.doAddSet now k v ttl := by
  unfold InMemoryStore.entryAt at hk
  unfold InMemoryStore.Add
  rw [ARCCache.Get_of_none hk]

theorem Replace_present {c : InMemoryStore} {k : String} {e0 : GenericCacheEntry}
    (hk : c.entryAt k = some e0) (now : Time) (v : Value) (ttl : Int) :
    c.Replace now k v ttl =
      ({ c with lru := (c.lru.Get k).2 } : InMemoryStore).doAddSet now k v ttl := by
  unfold InMemoryStore.entryAt at hk
  unfold InMemoryStore.Replace
  rw [ARCCache.Get_items_of_some hk]

theorem Replace_absent {c : InMemoryStore} {k : String} (hk : c.entryAt k = none) (now : Time)
    (v : Value) (ttl : Int) :
    c.Replace now k v ttl = { err := some .ErrNotStored, store := c } := by
  unfold InMemoryStore.entryAt at hk
  unfold InMemoryStore.Replace
  rw [ARCCache.Get_of_none hk]

/-- C8, counterexample: on the empty store `Add("int", 3, 500ms)` returns nil, yet a `Get` at
the very same clock reading misses, the stamp being the unix second already begun; and
`Add("flag", true, 1s)` returns nil, yet `Get` into a `*bool` returns `ErrNotSupport`. -/
theorem Add_then_Get_fails :
    (sampleStore.Add ⟨10, 200000000⟩ "int" (.int 3) 500000000).err = none ∧
    (sampleStore.Add ⟨10, 200000000⟩ "int" (.int 3) 500000000).store.Get ⟨10, 200000000⟩
        "int" (.ptr (.int 0)) =
      .returned { err := some .ErrCacheMiss, dest := .ptr (.int 0), store := sampleStore } ∧
    (sampleStore.Add ⟨10, 200000000⟩ "flag" (.bool true) Second).err = none ∧
    (sampleStore.Add ⟨10, 200000000⟩ "flag" (.bool true) Second).store.Get ⟨10, 200000000⟩
        "flag" (.ptr (.bool false)) =
      .returned { err := some .ErrNotSupport, dest := .ptr (.bool false),
                  store := (sampleStore.Add ⟨10, 200000000⟩ "flag" (.bool true)
                    Second).store } := by
  decide

/-- C8, amended: when key `k` is present, `Add(k, v, ttl)` returns `ErrNotStored` and the
entry under every key, `k` included, is what it was; when `k` is absent, `Add` returns nil and
stores `v` under `k` with the stamps of `Set`, and a following `Get(k)` whose clock reading is
not after that stamp yields `v` for a string, int or `ResponseCache` `v` read into a
destination of its type, and the stored entry for a read into an entry wrapper. -/
theorem Add_semantics (c : InMemoryStore) (tAdd tGet : Time) (k : String) (v : Value)
    (ttl : Int) :
    (∀ e0, c.entryAt k = some e0 →
      (c.Add tAdd k v ttl).err = some .ErrNotStored ∧
      ∀ k', (c.Add tAdd k v ttl).store.entryAt k' = c.entryAt k') ∧
    (c.entryAt k = none →
      (c.Add tAdd k v ttl).err = none ∧
      (c.Add tAdd k v ttl).store.entryAt k =
        some { Data := storedData v, TimeAdded := tAdd.Unix,
               ExpiresAt := expiryStamp c.DefaultExp tAdd.Unix ttl } ∧
      (stampLive (expiryStamp c.DefaultExp tAdd.Unix ttl) tGet →
        (∀ old : Value, servedAsIs v.typeOf → old.typeOf = v.typeOf →
          ∃ c', (c.Add tAdd k v ttl).store.Get tGet k (.ptr old) =
            .returned { err := none, dest := .ptr v, store := c' }) ∧
        (∀ old : GenericCacheEntry,
          ∃ c', (c.Add tAdd k v ttl).store.Get tGet k (.ptr old.toValue) =
            .returned { err := none,
                        dest := .ptr (.entry (storedData v) tAdd.Unix
                          (expiryStamp c.DefaultExp tAdd.Unix ttl)),
                        store := c' }))) := by
  constructor
  · intro e0 hk
    rw [Add_present hk]
    exact ⟨rfl, fun k' => ARCCache.Get_lookup c.lru k k'⟩
  · intro hk
    rw [Add_absent hk]
    obtain ⟨herr, hst, -⟩ := doAddSet_stored c tAdd k v ttl
    refine ⟨herr, hst, ?_⟩
    intro hlive
    have hl : GenericCacheEntry.Expired
        { Data := storedData v, TimeAdded := tAdd.Unix,
          ExpiresAt := expiryStamp c.DefaultExp tAdd.Unix ttl } tGet = false :=
      not_Expired_of_stampLive hlive
    refine ⟨?_, fun old => ⟨_, Get_live_entry hst hl old⟩⟩
    intro old hty hold
    have hsd := storedData_scalar hty
    have := Get_live_scalar hst hl old (by simpa [hsd] using hty) (by simpa [hsd] using hold)
    exact ⟨_, by simpa [hsd] using this⟩

/-- C8 (amended) at concrete inputs: a present key, and an absent key read back at the stamp. -/
theorem Add_semantics_witness :
    (liveStore.Add ⟨20, 0⟩ "int" (.int 2) Second).err = some .ErrNotStored ∧
    (∀ k', (liveStore.Add ⟨20, 0⟩ "int" (.int 2) Second).store.entryAt k' =
      liveStore.entryAt k') ∧
    (sampleStore.Add ⟨20, 0⟩ "int" (.int 3) Second).err = none ∧
    ∃ c', (sampleStore.Add ⟨20, 0⟩ "int" (.int 3) Second).store.Get ⟨21, 0⟩ "int"
        (.ptr (.int 0)) =
      .returned { err := none, dest := .ptr (.int 3), store := c' } :=
  have h : stampLive (expiryStamp sampleStore.DefaultExp (Time.mk 20 0).Unix Second)
      ⟨21, 0⟩ := by
    have hs : expiryStamp sampleStore.DefaultExp (Time.mk 20 0).Unix Second = 21 := by decide
    rw [hs]
    exact stampLive_of_fits (by decide) (by norm_num [Time.seconds])
  ⟨((Add_semantics liveStore ⟨20, 0⟩ ⟨20, 0⟩ "int" (.int 2) Second).1 _ rfl).1,
   ((Add_semantics liveStore ⟨20, 0⟩ ⟨20, 0⟩ "int" (.int 2) Second).1 _ rfl).2,
   ((Add_semantics sampleStore ⟨20, 0⟩ ⟨21, 0⟩ "int" (.int 3) Second).2 rfl).1,
   (((Add_semantics sampleStore ⟨20, 0⟩ ⟨21, 0⟩ "int" (.int 3) Second).2 rfl).2.2 h).1
     (.int 0) (Or.inr (Or.inl rfl)) rfl⟩

/-- C9, the code at the failing input: `Add("int", 1, 1s)` at unix second 100 leaves `"int"`
stamped 101; at 103 `Expired()` is true and no sweep or `Get` has removed the entry;
`Add("int", 3, 1s)` returns `ErrNotStored`, the stale entry stays, and the following `Get`
returns `ErrCacheMiss`. -/
theorem Add_blocked_by_stale_entry :
    sampleStore.Add ⟨100, 0⟩ "int" (.int 1) Second = { err := none, store := staleStore } ∧
    (staleStore.entryAt "int").map (fun e => e.Expired ⟨103, 0⟩) = some true ∧
    (staleStore.Add ⟨103, 0⟩ "int" (.int 3) Second).err = some .ErrNotStored ∧
    (staleStore.Add ⟨103, 0⟩ "int" (.int 3) Second).store.entryAt "int" =
      some { Data := .int 1, TimeAdded := 100, ExpiresAt := 101 } ∧
    (staleStore.Add ⟨103, 0⟩ "int" (.int 3) Second).store.Get ⟨103, 0⟩ "int" (.ptr (.int 0)) =
      .returned { err := some .ErrCacheMiss, dest := .ptr (.int 0),
                  store := { staleStore with lru := { size := 2, items := [] } } } := by
  decide

/-- C10, counterexample: `"int"` is present and `Replace("int", 2, 500ms)` returns nil, yet
a `Get` at the very same clock reading misses; and `Replace("int", true, 1s)` returns nil,
yet `Get` into a `*bool` returns `ErrNotSupport`. -/
theorem Replace_then_Get_fails :
    (liveStore.Replace ⟨10, 200000000⟩ "int" (.int 2) 500000000).err = none ∧
    (liveStore.Replace ⟨10, 200000000⟩ "int" (.int 2) 500000000).store.Get ⟨10, 200000000⟩
        "int" (.ptr (.int 0)) =
      .returned { err := some .ErrCacheMiss, dest := .ptr (.int 0), store := sampleStore } ∧
    (liveStore.Replace ⟨10, 200000000⟩ "int" (.bool true) Second).err = none ∧
    (liveStore.Replace ⟨10, 200000000⟩ "int" (.bool true) Second).store.Get ⟨10, 200000000⟩
        "int" (.ptr (.bool false)) =
      .returned { err := some .ErrNotSupport, dest := .ptr (.bool false),
                  store := (liveStore.Replace ⟨10, 200000000⟩ "int" (.bool true)
                    Second).store } := by
  decide

/-- C10, amended: `Replace(k, v, ttl)` returns nil exactly when `k` is present; it then stores
`v` under `k` with the stamps of `Set`, and a following `Get(k)` whose clock reading is not
after that stamp yields `v` for a string, int or `ResponseCache` `v` read into a destination
of its type, and the stored entry for a read into an entry wrapper. When `k` is absent it
returns `ErrNotStored` and the store is what it was. -/
theorem Replace_semantics (c : InMemoryStore) (tRep tGet : Time) (k : String) (v : Value)
    (ttl : Int) :
    ((c.Replace tRep k v ttl).err = none ↔ (c.entryAt k).isSome = true) ∧
    (∀ e0, c.entryAt k = some e0 →
      (c.Replace tRep k v ttl).store.entryAt k =
        some { Data := storedData v, TimeAdded := tRep.Unix,
               ExpiresAt := expiryStamp c.DefaultExp tRep.Unix ttl } ∧
      (stampLive (expiryStamp c.DefaultExp tRep.Unix ttl) tGet →
        (∀ old : Value, servedAsIs v.typeOf → old.typeOf = v.typeOf →
          ∃ c', (c.Replace tRep k v ttl).store.Get tGet k (.ptr old) =
            .returned { err := none, dest := .ptr v, store := c' }) ∧
        (∀ old : GenericCacheEntry,
          ∃ c', (c.Replace tRep k v ttl).store.Get tGet k (.ptr old.toValue) =
            .returned { err := none,
                        dest := .ptr (.entry (storedData v) tRep.Unix
                          (expiryStamp c.DefaultExp tRep.Unix ttl)),
                        store := c' }))) ∧
    (c.entryAt k = none →
      c.Replace tRep k v ttl = { err := some .ErrNotStored, store := c }) := by
  have hpres : ∀ e0, c.entryAt k = some e0 →
      (c.Replace tRep k v ttl).err = none ∧
      (c.Replace tRep k v ttl).store.entryAt k =
        some { Data := storedData v, TimeAdded := tRep.Unix,
               ExpiresAt := expiryStamp c.DefaultExp tRep.Unix ttl } := by
    intro e0 hk
    rw [Replace_present hk]
    obtain ⟨herr, hst, -⟩ :=
      doAddSet_stored ({ c with lru := (c.lru.Get k).2 } : InMemoryStore) tRep k v ttl
    exact ⟨herr, hst⟩
  refine ⟨?_, ?_, fun hk => Replace_absent hk tRep v ttl⟩
  · cases hk : c.entryAt k with
    | none => simp [Replace_absent hk]
    | some e0 => simpa using (hpres e0 hk).1
  · intro e0 hk
    refine ⟨(hpres e0 hk).2, ?_⟩
    intro hlive
    have hl : GenericCacheEntry.Expired
        { Data := storedData v, TimeAdded := tRep.Unix,
          ExpiresAt := expiryStamp c.DefaultExp tRep.Unix ttl } tGet = false :=
      not_Expired_of_stampLive hlive
    refine ⟨?_, fun old => ⟨_, Get_live_entry (hpres e0 hk).2 hl old⟩⟩
    intro old hty hold
    have hsd := storedData_scalar hty
    have := Get_live_scalar (hpres e0 hk).2 hl old (by simpa [hsd] using hty)
      (by simpa [hsd] using hold)
    exact ⟨_, by simpa [hsd] using this⟩

/-- C10 (amended) at concrete inputs: a present key read back at the stamp, and an absent
key. -/
theorem Replace_semantics_witness :
    ((liveStore.Replace ⟨20, 0⟩ "int" (.int 2) Second).err = none ↔
      (liveStore.entryAt "int").isSome = true) ∧
    (∃ c', (liveStore.Replace ⟨20, 0⟩ "int" (.int 2) Second).store.Get ⟨21, 0⟩ "int"
        (.ptr (.int 0)) =
      .returned { err := none, dest := .ptr (.int 2), store := c' }) ∧
    sampleStore.Replace ⟨20, 0⟩ "notexist" (.int 1) FOREVER =
      { err := some .ErrNotStored, store := sampleStore } :=
  have h : stampLive (expiryStamp liveStore.DefaultExp (Time.mk 20 0).Unix Second)
      ⟨21, 0⟩ := by
    have hs : expiryStamp liveStore.DefaultExp (Time.mk 20 0).Unix Second = 21 := by decide
    rw [hs]
    exact stampLive_of_fits (by decide) (by norm_num [Time.seconds])
  ⟨(Replace_semantics liveStore ⟨20, 0⟩ ⟨21, 0⟩ "int" (.int 2) Second).1,
   (((Replace_semantics liveStore ⟨20, 0⟩ ⟨21, 0⟩ "int" (.int 2) Second).2.1 _ rfl).2 h).1
     (.int 0) (Or.inr (Or.inl rfl)) rfl,
   (Replace_semantics sampleStore ⟨20, 0⟩ ⟨20, 0⟩ "notexist" (.int 1) FOREVER).2.2 rfl⟩

/-! ## Well-formedness is kept by every operation -/

theorem NewInMemoryStore_WF {maxEntries defaultExpiration : Int} {c : InMemoryStore}
    (h : NewInMemoryStore maxEntries defaultExpiration = some c) : c.WF := by
  unfold NewInMemoryStore NewARC at h
  by_cases hs : maxEntries ≤ 0
  · simp [hs] at h
  · simp only [hs, if_false] at h
    injection h with h
    subst h
    refine ⟨?_, ?_, ?_⟩
    · show 1 ≤ maxEntries.toNat
      omega
    · exact Nat.zero_le _
    · exact List.nodup_nil

theorem store_doAddSet_WF {c : InMemoryStore} (h : c.WF) (now : Time) (k : String) (v : Value)
    (exp : Int) : (c.doAddSet now k v exp).store.WF := by
  unfold InMemoryStore.doAddSet
  cases v <;> exact ARCCache.Add_WF h k _

theorem store_Add_WF {c : InMemoryStore} (h : c.WF) (now : Time) (k : String) (v : Value)
    (exp : Int) : (c.Add now k v exp).store.WF := by
  cases hk : c.entryAt k with
  | none => rw [Add_absent hk]; exact store_doAddSet_WF h now k v exp
  | some e0 => rw [Add_present hk]; exact ARCCache.Get_WF h k

theorem store_Replace_WF {c : InMemoryStore} (h : c.WF) (now : Time) (k : String) (v : Value)
    (exp : Int) : (c.Replace now k v exp).store.WF := by
  cases hk : c.entryAt k with
  | none => rw [Replace_absent hk]; exact h
  | some e0 =>
    rw [Replace_present hk]
    exact store_doAddSet_WF (c := { c with lru := (c.lru.Get k).2 }) (ARCCache.Get_WF h k) now k v exp

theorem store_Get_WF {c : InMemoryStore} (h : c.WF) (now : Time) (k : String) (dest : Dest)
    {r : GetResult} (hr : c.Get now k dest = .returned r) : r.store.WF := by
  unfold InMemoryStore.Get at hr
  cases hl : lookupKey k c.lru.items with
  | none =>
    rw [ARCCache.Get_of_none hl] at hr
    injection hr with hr
    subst hr
    exact h
  | some e =>
    rw [ARCCache.Get_items_of_some hl] at hr
    have hwf1 : ARCCache.WF { c.lru with items := (k, e) :: removeKey k c.lru.items } := by
      have := ARCCache.Get_WF h k
      rwa [ARCCache.Get_items_of_some hl] at this
    simp only at hr
    split at hr
    · injection hr with hr
      subst hr
      exact ARCCache.Remove_WF hwf1 k
    · split at hr
      · split at hr
        · injection hr with hr; subst hr; exact hwf1
        · exact Run.noConfusion hr
      · split at hr
        · injection hr with hr; subst hr; exact hwf1
        · exact Run.noConfusion hr
      · injection hr with hr; subst hr; exact hwf1
      · split at hr
        · injection hr with hr; subst hr; exact hwf1
        · exact Run.noConfusion hr
      · injection hr with hr; subst hr; exact hwf1

/-! ## Padding and the cipher -/

theorem Padding_eq {src : Bytes} {bs : Int} (hbs : 0 < bs) :
    Padding src bs =
      .returned (src ++ List.replicate (bs - (src.length : Int) % bs).toNat
        ((bs - (src.length : Int) % bs) % 256).toNat) := by
  unfold Padding
  have h1 : ¬ bs ≤ 0 := by omega
  have h2 : Int.tmod (src.length : Int) bs = (src.length : Int) % bs :=
    Int.tmod_eq_emod (by omega) (by omega)
  simp [h1, h2]

theorem padLen_bounds (n : Nat) {bs : Int} (hbs : 0 < bs) :
    0 < bs - (n : Int) % bs ∧ bs - (n : Int) % bs ≤ bs := by
  have h1 := Int.emod_nonneg (n : Int) (by omega : bs ≠ 0)
  have h2 := Int.emod_lt_of_pos (n : Int) hbs
  omega

theorem Padding_length {src padded : Bytes} {bs : Int} (hbs : 0 < bs)
    (h : Padding src bs = .returned padded) :
    (padded.length : Int) = src.length + (bs - (src.length : Int) % bs) ∧
    (padded.length : Int) % bs = 0 := by
  rw [Padding_eq hbs] at h
  injection h with h
  subst h
  obtain ⟨hp1, hp2⟩ := padLen_bounds src.length hbs
  have hlen : ((src ++ List.replicate (bs - (src.length : Int) % bs).toNat
      ((bs - (src.length : Int) % bs) % 256).toNat).length : Int) =
      src.length + (bs - (src.length : Int) % bs) := by
    simp only [List.length_append, List.length_replicate]
    push_cast
    rw [Int.toNat_of_nonneg (by omega)]
  refine ⟨hlen, ?_⟩
  rw [hlen]
  have : (src.length : Int) + (bs - (src.length : Int) % bs) =
      bs * ((src.length : Int) / bs + 1) := by
    have := Int.emod_add_ediv (src.length : Int) bs
    linarith
  rw [this]
  exact Int.mul_emod_right _ _

theorem Unpadding_Padding {src padded : Bytes} {bs : Int} (hbs : 0 < bs) (hbs' : bs ≤ 255)
    (hsrc : src ≠ []) (h : Padding src bs = .returned padded) :
    Unpadding padded bs = .returned (.ok src) := by
  rw [Padding_eq hbs] at h
  injection h with h
  obtain ⟨hp1, hp2⟩ := padLen_bounds src.length hbs
  set p : Int := bs - (src.length : Int) % bs with hp
  have hpn : 0 < p.toNat := by omega
  have hmod : (p % 256).toNat = p.toNat := by
    have : p % 256 = p := Int.emod_eq_of_lt (by omega) (by omega)
    rw [this]
  rw [hmod] at h
  have hlast : padded.getLast? = some p.toNat := by
    rw [← h, List.getLast?_append]
    have : (List.replicate p.toNat p.toNat).getLast? = some p.toNat := by
      obtain ⟨m, hm⟩ : ∃ m, p.toNat = m + 1 := ⟨p.toNat - 1, by omega⟩
      rw [hm]
      simp [List.getLast?_replicate]
    rw [this]
    rfl
  have hlen : padded.length = src.length + p.toNat := by
    rw [← h]
    simp
  have hsl : 0 < src.length := List.length_pos.mpr hsrc
  unfold Unpadding
  rw [hlast]
  have hcast : ((p.toNat : Nat) : Int) = p := Int.toNat_of_nonneg (by omega)
  have hcond : ¬ (((p.toNat : Nat) : Int) ≥ (padded.length : Int) ∨ ((p.toNat : Nat) : Int) > bs) := by
    rw [hlen]
    push_cast
    rw [hcast]
    omega
  simp only [hcond, if_false]
  have htake : ((padded.length : Int) - ((p.toNat : Nat) : Int)).toNat = src.length := by
    rw [hlen]
    push_cast
    omega
  rw [htake, ← h]
  simp

theorem swapAt_length (a : Bytes) (i j : Nat) : (swapAt a i j).length = a.length := by
  simp [swapAt]

theorem reverseLoop_length (a : Bytes) (n : Nat) : (reverseLoop a n).length = a.length := by
  induction n generalizing a with
  | zero => rfl
  | succ i ih =>
    unfold reverseLoop
    rw [ih, swapAt_length]

theorem keyAndIV_ok {secret : Bytes} (h : 16 ≤ secret.length) :
    ∃ r, keyAndIV secret = .ok (r, r) ∧ r.length = 16 := by
  have h1 : ¬ secret.length < 16 := by omega
  refine ⟨reverseLoop (secret.take 16) ((secret.take 16).length / 2), ?_, ?_⟩
  · unfold keyAndIV
    simp only [h1, if_false]
  · rw [reverseLoop_length, List.length_take]
    omega

theorem encryptByteArray_ok (cd : Codec) {secret : Bytes} (h : 16 ≤ secret.length)
    {data : Bytes} (hd : data.length % 16 = 0) :
    ∃ r, keyAndIV secret = .ok (r, r) ∧
      encryptByteArray cd data secret = .returned (.ok (cd.cbcEncrypt r r data)) ∧
      decryptByteArray cd data secret = .returned (.ok (cd.cbcDecrypt r r data)) := by
  obtain ⟨r, hr, hlen⟩ := keyAndIV_ok h
  refine ⟨r, hr, ?_, ?_⟩
  · unfold encryptByteArray
    rw [hr]
    simp [aesKeySizeOk, hlen, hd]
  · unfold decryptByteArray
    rw [hr]
    simp [aesKeySizeOk, hlen, hd]

theorem decryptEntry_encryptEntry (c : GenericCache) (cd : Codec) (hcbc : cd.cbcLawful)
    (henc : c.EncryptData = true) (hsecret : 16 ≤ c.sharedSecret.length) {d : Bytes}
    (hd : d ≠ []) :
    ∃ ct, c.encryptEntry cd d = .returned (.ok ct) ∧
      c.decryptEntry cd ct = .returned (.ok d) := by
  obtain ⟨hinv, hlen⟩ := hcbc
  have hpad : Padding d 16 = _ := Padding_eq (by norm_num)
  obtain ⟨hl1, hl2⟩ := Padding_length (by norm_num) hpad
  set padded := d ++ List.replicate ((16 : Int) - (d.length : Int) % 16).toNat
    (((16 : Int) - (d.length : Int) % 16) % 256).toNat with hpd
  have hmod : padded.length % 16 = 0 := by omega
  obtain ⟨r, hr, he, -⟩ := encryptByteArray_ok cd hsecret hmod
  have hmod' : (cd.cbcEncrypt r r padded).length % 16 = 0 := by rw [hlen]; exact hmod
  obtain ⟨r', hr', -, hdec⟩ := encryptByteArray_ok cd hsecret hmod'
  have hrr : r' = r := by
    rw [hr] at hr'
    injection hr' with hr'
    exact (congrArg Prod.fst hr').symm
  subst hrr
  refine ⟨cd.cbcEncrypt r' r' padded, ?_, ?_⟩
  · unfold GenericCache.encryptEntry
    simp only [henc, if_true, hpad, he]
  · unfold GenericCache.decryptEntry
    simp only [henc, if_true, hdec, hinv]
    rw [Unpadding_Padding (by norm_num) (by norm_num) hd hpad]

/-! ## The cache layer over the in-process store (C2, C3, C7) -/

theorem Get_live_unsupported {c : InMemoryStore} {now : Time} {k : String}
    {e : GenericCacheEntry} (hk : c.entryAt k = some e) (hl : e.Expired now = false)
    (old : Value) (hty : (∃ ty, old.typeOf = .num ty) ∨ old.typeOf = .float64) :
    c.Get now k (.ptr old) =
      .returned { err := some .ErrNotSupport, dest := .ptr old,
                  store := { c with lru := (c.lru.Get k).2 } } := by
  unfold InMemoryStore.entryAt at hk
  unfold InMemoryStore.Get
  rw [ARCCache.Get_items_of_some hk]
  rcases hty with ⟨ty, hty⟩ | hty
  · cases old <;> simp [Value.typeOf] at hty
    simp [hl, Dest.typeOf, Value.typeOf]
  · cases old <;> simp [Value.typeOf] at hty
    simp [hl, Dest.typeOf, Value.typeOf]

theorem GenericCache.Set_plain {c : GenericCache} {store : InMemoryStore}
    (hc : c.Cache = some store) (cd : Codec) (now : Time) (k : String) (v : Value) (exp : Int)
    (h : c.EncryptData = false ∨ ∀ d ta ea, v ≠ .entry d ta ea) :
    c.Set cd now k v exp =
      .returned { err := (store.Set now k v (c.storeExp exp)).err,
                  cache := { c with Cache := some (store.Set now k v (c.storeExp exp)).store } } := by
  unfold GenericCache.Set GenericCache.storeExp
  rw [hc]
  rcases h with h | h
  · simp [h]
  · cases v <;> first | (exfalso; exact h _ _ _ rfl) | (by_cases he : c.EncryptData <;> simp [he])

theorem GenericCache.Set_sealed {c : GenericCache} {store : InMemoryStore}
    (hc : c.Cache = some store) (henc : c.EncryptData = true) (cd : Codec) (now : Time)
    (k : String) (data : Value) (ta ea : Int) (exp : Int) {b ct : Bytes}
    (hb : cd.gobEncode data = some b) (hct : c.encryptEntry cd b = .returned (.ok ct)) :
    c.Set cd now k (.entry data ta ea) exp =
      .returned
        { err := (store.Set now k (c.NewGenericCacheEntry now (.bytes ct) exp).toValue
            (c.storeExp exp)).err,
          cache := { c with Cache := some (store.Set now k
            (c.NewGenericCacheEntry now (.bytes ct) exp).toValue (c.storeExp exp)).store } } := by
  unfold GenericCache.Set GenericCache.storeExp
  rw [hc]
  simp [henc, hb, hct]

theorem mapGetError_NotSupport : mapGetError .ErrNotSupport = .ErrNotSupport := by decide

theorem GenericCache.Get_scalar {c : GenericCache} {store : InMemoryStore}
    (hc : c.Cache = some store) (cd : Codec) (now : Time) (k : String) (old : Value)
    (hty : servedAsIs old.typeOf ∨ (∃ ty, old.typeOf = .num ty) ∨ old.typeOf = .float64) :
    c.Get cd now k (.ptr old) = c.getPlain store now k (.ptr old) := by
  unfold GenericCache.Get
  rw [hc]
  rcases hty with (h | h | h) | ⟨ty, h⟩ | h <;> simp [Dest.typeOf, h]

theorem GenericCache.getPlain_of_returned (c : GenericCache) {store : InMemoryStore}
    {now : Time} {k : String} {value : Dest} {r : GetResult}
    (h : store.Get now k value = .returned r) :
    c.getPlain store now k value =
      .returned { err := r.err.map mapGetError, dest := r.dest,
                  cache := { c with Cache := some r.store } } := by
  unfold GenericCache.getPlain
  rw [h]
  obtain ⟨err, dest, st⟩ := r
  cases err <;> rfl

theorem GenericCache.Get_entry_clear {c : GenericCache} {store : InMemoryStore}
    (hc : c.Cache = some store) (henc : c.EncryptData = false) (cd : Codec) {now : Time}
    {k : String} {old out : GenericCacheEntry} {st : InMemoryStore}
    (h : store.Get now k (.ptr old.toValue) =
      .returned { err := none, dest := .ptr out.toValue, store := st }) :
    c.Get cd now k (.ptr old.toValue) =
      .returned { err := none, dest := .ptr out.toValue,
                  cache := { c with Cache := some st } } := by
  unfold GenericCache.Get
  rw [hc]
  simp only [Dest.typeOf, GenericCacheEntry.toValue, Value.typeOf]
  simp only [GenericCacheEntry.toValue] at h
  rw [GenericCache.getPlain_of_returned _ h]
  simp [henc]

/-- C7, the code at the failing input: `NewGenericCacheEntry("x", FOREVER)` at unix second
1000 stamps `ExpiresAt = 1000`, not `0`, since `-1ns / time.Second` is `0` and `FOREVER` has
no branch of its own; one nanosecond later `Expired()` is true. `doAddSet` does have the
branch: `Set` with `FOREVER` at the same instant stamps `0`. -/
theorem NewGenericCacheEntry_FOREVER_expires :
    (sampleCache false).NewGenericCacheEntry ⟨1000, 0⟩ (.string "x") FOREVER =
      { Data := .string "x", TimeAdded := 1000, ExpiresAt := 1000 } ∧
    ((sampleCache false).NewGenericCacheEntry ⟨1000, 0⟩ (.string "x") FOREVER).Expired
      ⟨1000, 1⟩ = true ∧
    (sampleStore.Set ⟨1000, 0⟩ "k" (.string "x") FOREVER).store.entryAt "k" =
      some { Data := .string "x", TimeAdded := 1000, ExpiresAt := 0 } := by
  decide

/-- C2, counterexample: over the in-process store, an `int8` and a `float64` are set and read
back at once into destinations of their own types and `Get` returns the store's
`ErrNotSupport`; an entry wrapper comes back with the stamps of the `Set`, not its own; and a
string set with a ttl of 500 ms misses 100 ms later. -/
theorem GenericCache_roundtrip_fails :
    (∃ c1 c2, (sampleCache false).Set sampleCodec ⟨10, 0⟩ "k" (.num .int8 5) (3 * Second) =
        .returned { err := none, cache := c1 } ∧
      c1.Get sampleCodec ⟨10, 0⟩ "k" (.ptr (.num .int8 0)) =
        .returned { err := some .ErrNotSupport, dest := .ptr (.num .int8 0), cache := c2 }) ∧
    (∃ c1 c2, (sampleCache false).Set sampleCodec ⟨10, 0⟩ "k" (.float64 7) (3 * Second) =
        .returned { err := none, cache := c1 } ∧
      c1.Get sampleCodec ⟨10, 0⟩ "k" (.ptr (.float64 0)) =
        .returned { err := some .ErrNotSupport, dest := .ptr (.float64 0), cache := c2 }) ∧
    (∃ c1 c2, (sampleCache false).Set sampleCodec ⟨10, 0⟩ "k" (.entry (.string "x") 1 2)
        (3 * Second) = .returned { err := none, cache := c1 } ∧
      c1.Get sampleCodec ⟨10, 0⟩ "k" (.ptr (.entry .nil 0 0)) =
        .returned { err := none, dest := .ptr (.entry (.string "x") 10 13), cache := c2 }) ∧
    (∃ c1 c2, (sampleCache false).Set sampleCodec ⟨10, 200000000⟩ "k" (.string "foo")
        500000000 = .returned { err := none, cache := c1 } ∧
      c1.Get sampleCodec ⟨10, 300000000⟩ "k" (.ptr (.string "")) =
        .returned { err := some .GenericErrCacheMiss, dest := .ptr (.string ""),
                    cache := c2 }) :=
  ⟨⟨_, _, rfl, rfl⟩, ⟨_, _, rfl, rfl⟩, ⟨_, _, rfl, rfl⟩, ⟨_, _, rfl, rfl⟩⟩

/-- C2, amended: for a cache backed by the in-process store and every key, `Set(k, v, ttl)`
followed by a `Get` whose clock reading is not after the stamp the store set (unix second of
the `Set` plus the whole seconds of the ttl, the cache's and then the store's default for a
zero ttl, no limit for `FOREVER`) returns nil with `out == v` when `v` is a string or an int
(or a `ResponseCache`);
without encryption an entry wrapper comes back with `Data` equal to `v.Data`, `TimeAdded` the
unix second of the `Set` and `ExpiresAt` the stamp the store set; and for a fixed-width
integer other than `int`, a `uint` or a `float64` the `Get` returns the `ErrNotSupport` of
the store, passed on as the value it is, and leaves the destination as it was. -/
theorem GenericCache_roundtrip (c : GenericCache) (cd : Codec) (store : InMemoryStore)
    (hc : c.Cache = some store) (tSet tGet : Time) (k : String) (v : Value) (ttl : Int)
    (hlive : stampLive (expiryStamp store.DefaultExp tSet.Unix (c.storeExp ttl)) tGet) :
    (∀ old : Value, servedAsIs v.typeOf → old.typeOf = v.typeOf →
      ∃ c1 c2, c.Set cd tSet k v ttl = .returned { err := none, cache := c1 } ∧
        c1.Get cd tGet k (.ptr old) =
          .returned { err := none, dest := .ptr v, cache := c2 }) ∧
    (c.EncryptData = false →
      ∀ (data : Value) (ta ea : Int) (old : GenericCacheEntry), v = .entry data ta ea →
        ∃ (c1 c2 : GenericCache),
          c.Set cd tSet k v ttl = .returned { err := none, cache := c1 } ∧
          c1.Get cd tGet k (.ptr old.toValue) =
            .returned { err := none,
                        dest := .ptr (.entry data tSet.Unix
                          (expiryStamp store.DefaultExp tSet.Unix (c.storeExp ttl))),
                        cache := c2 }) ∧
    (∀ old : Value, ((∃ ty, v.typeOf = .num ty) ∨ v.typeOf = .float64) →
      old.typeOf = v.typeOf →
      ∃ c1 c2, c.Set cd tSet k v ttl = .returned { err := none, cache := c1 } ∧
        c1.Get cd tGet k (.ptr old) =
          .returned { err := some .ErrNotSupport, dest := .ptr old, cache := c2 }) := by
  obtain ⟨herr, hst, -⟩ := doAddSet_stored store tSet k v (c.storeExp ttl)
  have hl : GenericCacheEntry.Expired
      { Data := storedData v, TimeAdded := tSet.Unix,
        ExpiresAt := expiryStamp store.DefaultExp tSet.Unix (c.storeExp ttl) } tGet = false :=
    not_Expired_of_stampLive hlive
  have hplain : (c.EncryptData = false ∨ ∀ d ta ea, v ≠ .entry d ta ea) →
      c.Set cd tSet k v ttl =
        .returned { err := none,
                    cache := { c with Cache := some (store.doAddSet tSet k v
                      (c.storeExp ttl)).store } } := by
    intro h
    rw [GenericCache.Set_plain hc cd tSet k v ttl h]
    simp only [InMemoryStore.Set, herr]
  refine ⟨?_, ?_, ?_⟩
  · intro old hty hold
    have hne : ∀ d ta ea, v ≠ .entry d ta ea := by
      intro d ta ea hv
      subst hv
      simp [servedAsIs, Value.typeOf] at hty
    have hsd := storedData_scalar hty
    have hget := Get_live_scalar hst hl old (by simpa [hsd] using hty)
      (by simpa [hsd] using hold)
    simp only [hsd] at hget
    have hold' : servedAsIs old.typeOf ∨ (∃ ty, old.typeOf = .num ty) ∨
        old.typeOf = .float64 := Or.inl (by rw [hold]; exact hty)
    exact ⟨_, _, hplain (Or.inr hne),
      (GenericCache.Get_scalar rfl cd tGet k old hold').trans
        (GenericCache.getPlain_of_returned _ hget)⟩
  · intro henc data ta ea old hv
    subst hv
    have hget := Get_live_entry hst hl old
    exact ⟨_, _, hplain (Or.inl henc),
      GenericCache.Get_entry_clear (by rfl) (by exact henc) cd hget⟩
  · intro old hty hold
    have hne : ∀ d ta ea, v ≠ .entry d ta ea := by
      intro d ta ea hv
      subst hv
      simp [Value.typeOf] at hty
    have hold' : (∃ ty, old.typeOf = .num ty) ∨ old.typeOf = .float64 := by
      rcases hty with ⟨ty, h⟩ | h
      · exact Or.inl ⟨ty, hold.trans h⟩
      · exact Or.inr (hold.trans h)
    have hget := Get_live_unsupported hst hl old hold'
    exact ⟨_, _, hplain (Or.inr hne),
      (GenericCache.Get_scalar rfl cd tGet k old (Or.inr hold')).trans
        (GenericCache.getPlain_of_returned _ hget)⟩

/-- C2 (amended) at a concrete input: a string set with the default ttl and read at the
stamp. -/
theorem GenericCache_roundtrip_witness :
    ∃ c1 c2, (sampleCache false).Set sampleCodec ⟨10, 0⟩ "value" (.string "foo") DEFAULT =
        .returned { err := none, cache := c1 } ∧
      c1.Get sampleCodec ⟨3610, 0⟩ "value" (.ptr (.string "")) =
        .returned { err := none, dest := .ptr (.string "foo"), cache := c2 } :=
  have h : stampLive (expiryStamp sampleStore.DefaultExp (Time.mk 10 0).Unix
      ((sampleCache false).storeExp DEFAULT)) ⟨3610, 0⟩ := by
    have hs : expiryStamp sampleStore.DefaultExp (Time.mk 10 0).Unix
        ((sampleCache false).storeExp DEFAULT) = 3610 := by decide
    rw [hs]
    exact stampLive_of_fits (by decide) (by norm_num [Time.seconds])
  (GenericCache_roundtrip (sampleCache false) sampleCodec sampleStore rfl ⟨10, 0⟩ ⟨3610, 0⟩
    "value" (.string "foo") DEFAULT h).1 (.string "") (Or.inl rfl) rfl

theorem sampleCodec_cbcLawful : sampleCodec.cbcLawful := by
  constructor
  · intro key iv data
    simp [sampleCodec]
  · intro key iv data
    simp [sampleCodec]

theorem GenericCache.Get_entry_sealed {c : GenericCache} {store : InMemoryStore}
    (hc : c.Cache = some store) (henc : c.EncryptData = true) (cd : Codec) {now : Time}
    {k : String} {old : GenericCacheEntry} {ct : Bytes} {ta ea : Int} {st : InMemoryStore}
    (h : store.Get now k (.ptr old.toValue) =
      .returned { err := none, dest := .ptr (.entry (.bytes ct) ta ea), store := st })
    {b : Bytes} (hd : c.decryptEntry cd ct = .returned (.ok b)) {v : Value}
    (hv : cd.gobDecode b = some v) :
    c.Get cd now k (.ptr old.toValue) =
      .returned { err := none, dest := .ptr (.entry v ta ea),
                  cache := { c with Cache := some st } } := by
  unfold GenericCache.Get
  rw [hc]
  simp only [Dest.typeOf, GenericCacheEntry.toValue, Value.typeOf]
  simp only [GenericCacheEntry.toValue] at h
  rw [GenericCache.getPlain_of_returned _ h]
  simp [henc, hd, hv]

/-- C3, counterexample: on an encrypting cache with the 16-byte secret of the tests and a
codec for which decryption inverts encryption and decoding inverts encoding, an entry wrapper
set with a ttl of 500 ms is missed by a `Get` at the very same clock reading: the stamp is
the unix second already begun. -/
theorem encrypted_Set_Get_misses :
    16 ≤ (sampleCache true).sharedSecret.length ∧
    (sampleCodec.gobEncode (.string "x")).bind sampleCodec.gobDecode = some (.string "x") ∧
    ∃ c1 c2, (sampleCache true).Set sampleCodec ⟨10, 200000000⟩ "value"
        (.entry (.string "x") 0 0) 500000000 = .returned { err := none, cache := c1 } ∧
      c1.Get sampleCodec ⟨10, 200000000⟩ "value" (.ptr (.entry .nil 0 0)) =
        .returned { err := some .GenericErrCacheMiss, dest := .ptr (.entry .nil 0 0),
                    cache := c2 } :=
  ⟨by decide, by decide, _, _, rfl, rfl⟩

/-- C3, amended: on a cache with `EncryptData = true` and a secret of at least 16 bytes, with
a block mode whose decryption inverts its encryption, `decryptEntry(encryptEntry(d))`
returns `d` with no error for every non-empty `d`; and when the gob encoding of `Data` is a
non-empty stream that decodes back to `Data`, `Set(k, entry, ttl)` returns nil and a `Get`
into an entry wrapper whose clock reading is not after the stamp the store set returns nil
with `Data` equal to `entry.Data`. -/
theorem encrypted_roundtrip (c : GenericCache) (cd : Codec) (henc : c.EncryptData = true)
    (hsecret : 16 ≤ c.sharedSecret.length) (hcbc : cd.cbcLawful) :
    (∀ d : Bytes, d ≠ [] →
      ∃ ct, c.encryptEntry cd d = .returned (.ok ct) ∧
        c.decryptEntry cd ct = .returned (.ok d)) ∧
    (∀ (store : InMemoryStore) (tSet tGet : Time) (k : String) (data : Value) (ta ea : Int)
        (ttl : Int) (b : Bytes) (old : GenericCacheEntry),
      c.Cache = some store → cd.gobEncode data = some b → b ≠ [] →
      cd.gobDecode b = some data →
      stampLive (expiryStamp store.DefaultExp tSet.Unix (c.storeExp ttl)) tGet →
      ∃ (c1 c2 : GenericCache) (out : GenericCacheEntry),
        c.Set cd tSet k (.entry data ta ea) ttl = .returned { err := none, cache := c1 } ∧
        c1.Get cd tGet k (.ptr old.toValue) =
          .returned { err := none, dest := .ptr out.toValue, cache := c2 } ∧
        out.Data = data) := by
  refine ⟨fun d hd => decryptEntry_encryptEntry c cd hcbc henc hsecret hd, ?_⟩
  intro store tSet tGet k data ta ea ttl b old hc hgob hb hdec hlive
  obtain ⟨ct, hct, hdct⟩ := decryptEntry_encryptEntry c cd hcbc henc hsecret hb
  have hset := GenericCache.Set_sealed hc henc cd tSet k data ta ea ttl hgob hct
  obtain ⟨herr, hst, -⟩ := doAddSet_stored store tSet k
    (c.NewGenericCacheEntry tSet (.bytes ct) ttl).toValue (c.storeExp ttl)
  have hsd : storedData (c.NewGenericCacheEntry tSet (.bytes ct) ttl).toValue = .bytes ct := rfl
  rw [hsd] at hst
  have hl : GenericCacheEntry.Expired
      { Data := .bytes ct, TimeAdded := tSet.Unix,
        ExpiresAt := expiryStamp store.DefaultExp tSet.Unix (c.storeExp ttl) } tGet = false :=
    not_Expired_of_stampLive hlive
  have hget := Get_live_entry hst hl old
  have hset' : c.Set cd tSet k (.entry data ta ea) ttl =
      .returned { err := none,
                  cache := { c with Cache := some (store.doAddSet tSet k
                    (c.NewGenericCacheEntry tSet (.bytes ct) ttl).toValue
                    (c.storeExp ttl)).store } } := by
    rw [hset]
    simp only [InMemoryStore.Set, herr]
  exact ⟨_, _, { Data := data, TimeAdded := tSet.Unix,
                 ExpiresAt := expiryStamp store.DefaultExp tSet.Unix (c.storeExp ttl) },
    hset',
    GenericCache.Get_entry_sealed (by rfl) (by exact henc) cd hget (by exact hdct)
      (by exact hdec),
    rfl⟩

/-- C3 (amended) at concrete inputs: three bytes through the cipher, and an entry wrapper
set for three seconds and read at the stamp. -/
theorem encrypted_roundtrip_witness :
    (∃ ct, (sampleCache true).encryptEntry sampleCodec [1, 2, 3] = .returned (.ok ct) ∧
      (sampleCache true).decryptEntry sampleCodec ct = .returned (.ok [1, 2, 3])) ∧
    ∃ (c1 c2 : GenericCache) (out : GenericCacheEntry),
      (sampleCache true).Set sampleCodec ⟨10, 0⟩ "value" (.entry (.string "x") 0 0)
        (3 * Second) = .returned { err := none, cache := c1 } ∧
      c1.Get sampleCodec ⟨13, 0⟩ "value" (.ptr (GenericCacheEntry.mk .nil 0 0).toValue) =
        .returned { err := none, dest := .ptr out.toValue, cache := c2 } ∧
      out.Data = .string "x" :=
  have h : stampLive (expiryStamp sampleStore.DefaultExp (Time.mk 10 0).Unix
      ((sampleCache true).storeExp (3 * Second))) ⟨13, 0⟩ := by
    have hs : expiryStamp sampleStore.DefaultExp (Time.mk 10 0).Unix
        ((sampleCache true).storeExp (3 * Second)) = 13 := by decide
    rw [hs]
    exact stampLive_of_fits (by decide) (by norm_num [Time.seconds])
  ⟨(encrypted_roundtrip (sampleCache true) sampleCodec rfl (by decide)
      sampleCodec_cbcLawful).1 [1, 2, 3] (by decide),
   (encrypted_roundtrip (sampleCache true) sampleCodec rfl (by decide)
      sampleCodec_cbcLawful).2 sampleStore ⟨10, 0⟩ ⟨13, 0⟩ "value" (.string "x") 0 0
      (3 * Second) [120] ⟨.nil, 0, 0⟩ rfl rfl (by decide) (by decide) h⟩

/-! ## Replace on a stale key (C11) -/

/-- C11, the code at the failing input: the steps of `testReplace` on a cache over the
in-process store, with no sweep in between. `Set("int", 1, time.Second)` at second 100 leaves
an entry stamped 101; at second 106 that entry is expired, yet `Replace("int", 3,
time.Second)` returns nil, not `ErrNotStored` or `ErrCacheMiss`, and the `Get` that follows
returns nil with the value 3, not `ErrCacheMiss`. -/
theorem Replace_revives_stale_key :
    ∃ c1, (sampleCache false).Set sampleCodec ⟨100, 0⟩ "int" (.int 1) Second =
        .returned { err := none, cache := c1 } ∧
      (c1.Cache.bind fun s => s.entryAt "int") =
        some { Data := .int 1, TimeAdded := 100, ExpiresAt := 101 } ∧
      GenericCacheEntry.Expired { Data := .int 1, TimeAdded := 100, ExpiresAt := 101 }
        ⟨106, 0⟩ = true ∧
      (c1.Replace ⟨106, 0⟩ "int" (.int 3) Second).err = none ∧
      ∃ c3, (c1.Replace ⟨106, 0⟩ "int" (.int 3) Second).cache.Get sampleCodec ⟨106, 0⟩ "int"
          (.ptr (.int 0)) = .returned { err := none, dest := .ptr (.int 3), cache := c3 } :=
  ⟨_, rfl, by decide, by decide, by decide, _, rfl⟩

/-! ## Counters (C12, C13, C14) -/

theorem toUint64_wrapInt64 (x : Int) : toUint64 (wrapInt64 x) = toUint64 x := by
  unfold toUint64 wrapInt64
  congr 1
  norm_num
  omega

theorem wrapInt64_add_wrapInt64 (v n : Int) :
    wrapInt64 (v + wrapInt64 n) = wrapInt64 (v + n) := by
  unfold wrapInt64
  norm_num
  omega

theorem toUint64_cast (x : Int) : ((toUint64 x : Nat) : Int) = x % 2 ^ 64 := by
  unfold toUint64
  norm_num
  omega

theorem Increment_int {c : InMemoryStore} {k : String} {e : GenericCacheEntry} {v : Int}
    (hk : c.entryAt k = some e) (hd : e.Data = .int v) (n : Nat) :
    c.Increment k n =
      ⟨toUint64 (v + n), none,
        ⟨(c.lru.Get k).2.Add k ⟨.int (wrapInt64 (v + n)), e.TimeAdded, e.ExpiresAt⟩,
          c.DefaultExp⟩⟩ := by
  unfold InMemoryStore.entryAt at hk
  unfold InMemoryStore.Increment
  rw [ARCCache.Get_items_of_some hk]
  simp only [hd, wrapInt64_add_wrapInt64, toUint64_wrapInt64]

theorem Decrement_int {c : InMemoryStore} {k : String} {e : GenericCacheEntry} {v : Int}
    (hk : c.entryAt k = some e) (hd : e.Data = .int v) (n : Nat) :
    c.Decrement k n =
      ⟨toUint64 (if wrapInt64 n > v then 0 else wrapInt64 (v - wrapInt64 n)), none,
        ⟨(c.lru.Get k).2.Add k
          ⟨.int (if wrapInt64 n > v then 0 else wrapInt64 (v - wrapInt64 n)), e.TimeAdded,
            e.ExpiresAt⟩,
          c.DefaultExp⟩⟩ := by
  unfold InMemoryStore.entryAt at hk
  unfold InMemoryStore.Decrement
  rw [ARCCache.Get_items_of_some hk]
  simp only [hd]

theorem Increment_entryAt {c : InMemoryStore} {k : String} {e : GenericCacheEntry} {v : Int}
    (hk : c.entryAt k = some e) (hd : e.Data = .int v) (n : Nat) :
    (c.Increment k n).store.entryAt k = some { e with Data := .int (wrapInt64 (v + n)) } := by
  rw [Increment_int hk hd]
  simp [InMemoryStore.entryAt, ARCCache.Add_lookup_self]

theorem Decrement_small {c : InMemoryStore} {k : String} {e : GenericCacheEntry} {v : Int}
    (hk : c.entryAt k = some e) (hd : e.Data = .int v) (hv0 : 0 ≤ v) (hv : v < 2 ^ 63)
    {n : Nat} (hn : n < 2 ^ 63) :
    (c.Decrement k n).err = none ∧
    ((c.Decrement k n).value : Int) = if (n : Int) ≤ v then v - n else 0 := by
  rw [Decrement_int hk hd]
  refine ⟨rfl, ?_⟩
  simp only [toUint64_cast]
  have hn' : wrapInt64 (n : Int) = n := by
    apply wrapInt64_of_isInt64
    unfold isInt64
    constructor
    · have : (0 : Int) ≤ n := Int.natCast_nonneg n
      norm_num
      omega
    · exact_mod_cast hn
  rw [hn']
  have hn2 : (n : Int) < 2 ^ 63 := by exact_mod_cast hn
  by_cases h : (n : Int) ≤ v
  · have hw : wrapInt64 (v - n) = v - n := by
      apply wrapInt64_of_isInt64
      unfold isInt64
      norm_num at hv hn2 ⊢
      omega
    rw [if_neg (by omega), if_pos h, hw]
    norm_num at hv ⊢
    omega
  · rw [if_pos (by omega), if_neg h]
    norm_num

/-- C12, counterexample: a key holding 0 is incremented by `2^63`; the call returns `2^63`
with no error, and the store keeps the `int` with those 64 bits, which is `-2^63`. The
`Decrement(k, 1)` that follows does not start from the returned value: it returns 0, not
`2^63 - 1`. -/
theorem Increment_then_Decrement_floors :
    ((sampleStore.Set ⟨10, 0⟩ "int" (.int 0) FOREVER).store.Increment "int" (2 ^ 63)).err
      = none ∧
    ((sampleStore.Set ⟨10, 0⟩ "int" (.int 0) FOREVER).store.Increment "int" (2 ^ 63)).value
      = 2 ^ 63 ∧
    (((sampleStore.Set ⟨10, 0⟩ "int" (.int 0) FOREVER).store.Increment "int"
      (2 ^ 63)).store.entryAt "int").map (fun e => e.Data) = some (.int (-2 ^ 63)) ∧
    (((sampleStore.Set ⟨10, 0⟩ "int" (.int 0) FOREVER).store.Increment "int"
      (2 ^ 63)).store.Decrement "int" 1).err = none ∧
    (((sampleStore.Set ⟨10, 0⟩ "int" (.int 0) FOREVER).store.Increment "int"
      (2 ^ 63)).store.Decrement "int" 1).value = 0 := by
  decide

/-- C12, amended: for a key holding an `int` value `v`, non-negative or not, and every `n`,
`Increment(k, n)` returns `(v + n) mod 2^64` with no error and stores under `k` the `int`
with those 64 bits, the rest of the entry as it was. A following `Increment(k, m)`
returns the returned value plus `m`, again modulo `2^64`; a following `Decrement(k, m)` with
`m < 2^63` starts from the returned value when that is below `2^63`: it returns the
difference, or 0 when `m` is the larger. -/
theorem Increment_wraps (c : InMemoryStore) (k : String) (e : GenericCacheEntry) (v : Int)
    (n : Nat) (hk : c.entryAt k = some e) (hd : e.Data = .int v) :
    (c.Increment k n).err = none ∧
    ((c.Increment k n).value : Int) = (v + n) % 2 ^ 64 ∧
    (∃ w : Int, (c.Increment k n).store.entryAt k = some { e with Data := .int w } ∧
      isInt64 w ∧ toUint64 w = (c.Increment k n).value) ∧
    (∀ m : Nat, m < 2 ^ 64 →
      ((c.Increment k n).store.Increment k m).err = none ∧
      ((c.Increment k n).store.Increment k m).value =
        ((c.Increment k n).value + m) % 2 ^ 64) ∧
    ((c.Increment k n).value < 2 ^ 63 → ∀ m : Nat, m < 2 ^ 63 →
      ((c.Increment k n).store.Decrement k m).err = none ∧
      ((c.Increment k n).store.Decrement k m).value =
        if m ≤ (c.Increment k n).value then (c.Increment k n).value - m else 0) := by
  have hent := Increment_entryAt hk hd n
  have hval : (c.Increment k n).value = toUint64 (v + n) := by rw [Increment_int hk hd]
  have herr : (c.Increment k n).err = none := by rw [Increment_int hk hd]
  have hcast : ((c.Increment k n).value : Int) = (v + n) % 2 ^ 64 := by
    rw [hval, toUint64_cast]
  have hw : isInt64 (wrapInt64 (v + n)) := by
    unfold isInt64 wrapInt64
    norm_num
    omega
  have hwv : toUint64 (wrapInt64 (v + n)) = (c.Increment k n).value := by
    rw [hval, toUint64_wrapInt64]
  refine ⟨herr, hcast, ⟨_, hent, hw, hwv⟩, ?_, ?_⟩
  · intro m _
    have h2 := Increment_int hent (rfl : _ = Value.int (wrapInt64 (v + n))) m
    rw [h2]
    refine ⟨rfl, ?_⟩
    simp only
    have : ((toUint64 (wrapInt64 (v + ↑n) + ↑m) : Nat) : Int) =
        ((((c.Increment k n).value + m) % 2 ^ 64 : Nat) : Int) := by
      rw [toUint64_cast]
      push_cast
      rw [hcast]
      unfold wrapInt64
      norm_num
      omega
    exact_mod_cast this
  · intro hlt m hm
    have hlt' : ((c.Increment k n).value : Int) < 2 ^ 63 := by exact_mod_cast hlt
    have hwe : wrapInt64 (v + n) = ((c.Increment k n).value : Int) := by
      rw [hcast]
      rw [hcast] at hlt'
      unfold wrapInt64
      norm_num at hlt' ⊢
      omega
    have h0 : (0 : Int) ≤ wrapInt64 (v + n) := by rw [hwe]; exact Int.natCast_nonneg _
    have hlt2 : wrapInt64 (v + n) < 2 ^ 63 := by rw [hwe]; exact hlt'
    obtain ⟨he, hvl⟩ := Decrement_small hent (rfl : _ = Value.int (wrapInt64 (v + n))) h0 hlt2 hm
    refine ⟨he, ?_⟩
    rw [hwe] at hvl
    by_cases hle : m ≤ (c.Increment k n).value
    · rw [if_pos hle]
      rw [if_pos (by exact_mod_cast hle)] at hvl
      omega
    · rw [if_neg hle]
      rw [if_neg (by intro h; exact hle (by exact_mod_cast h))] at hvl
      exact_mod_cast hvl

/-- C12 (amended) at the inputs of `incrDecr`: from 10, `Increment(50)` returns 60 and
`Increment(MaxUint64 - 5)` returns 4. -/
theorem Increment_wraps_witness :
    ((sampleStore.Set ⟨10, 0⟩ "int" (.int 10) DEFAULT).store.Increment "int" 50).value = 60 ∧
    ((sampleStore.Set ⟨10, 0⟩ "int" (.int 10) DEFAULT).store.Increment "int"
      (2 ^ 64 - 1 - 5)).value = 4 := by
  have h1 := (Increment_wraps (sampleStore.Set ⟨10, 0⟩ "int" (.int 10) DEFAULT).store "int"
    { Data := .int 10, TimeAdded := 10, ExpiresAt := 3610 } 10 50 (by decide) rfl).2.1
  have h2 := (Increment_wraps (sampleStore.Set ⟨10, 0⟩ "int" (.int 10) DEFAULT).store "int"
    { Data := .int 10, TimeAdded := 10, ExpiresAt := 3610 } 10 (2 ^ 64 - 1 - 5) (by decide)
    rfl).2.1
  constructor
  · have : (((sampleStore.Set ⟨10, 0⟩ "int" (.int 10) DEFAULT).store.Increment "int" 50).value
        : Int) = 60 := by rw [h1]; norm_num
    exact_mod_cast this
  · have : (((sampleStore.Set ⟨10, 0⟩ "int" (.int 10) DEFAULT).store.Increment "int"
        (2 ^ 64 - 1 - 5)).value : Int) = 4 := by rw [h2]; norm_num
    exact_mod_cast this

/-- C13, the code at the failing input: a key holding 10 is decremented by `MaxUint64`. The
conversion `int(n)` gives `-1`, the test `int(n) > 10` fails, and the code stores and returns
`10 - (-1) = 11`: more than the value held, where the claim has 0. The same call with 25 on a
key holding 4 does return 0. -/
theorem Decrement_by_MaxUint64_adds :
    ((sampleStore.Set ⟨10, 0⟩ "int" (.int 10) DEFAULT).store.Decrement "int"
      18446744073709551615).err = none ∧
    ((sampleStore.Set ⟨10, 0⟩ "int" (.int 10) DEFAULT).store.Decrement "int"
      18446744073709551615).value = 11 ∧
    (((sampleStore.Set ⟨10, 0⟩ "int" (.int 10) DEFAULT).store.Decrement "int"
      18446744073709551615).store.entryAt "int").map (fun e => e.Data) = some (.int 11) ∧
    ((sampleStore.Set ⟨10, 0⟩ "int" (.int 4) DEFAULT).store.Decrement "int" 25).value = 0 := by
  decide

/-- C14: when the value stored under `k` is not an `int` (a string, say), `Increment(k, n)`
and `Decrement(k, n)` return `(0, ErrNotSupport)` for every `n`, and afterwards every key of
the store, `k` among them, holds the entry it held before. -/
theorem Increment_Decrement_not_int (c : InMemoryStore) (k : String)
    (e : GenericCacheEntry) (n : Nat) (hk : c.entryAt k = some e)
    (hd : e.Data.typeOf ≠ .int) :
    ((c.Increment k n).value = 0 ∧ (c.Increment k n).err = some .ErrNotSupport ∧
      (c.Increment k n).store.entryAt k = some e ∧
      ∀ k', (c.Increment k n).store.entryAt k' = c.entryAt k') ∧
    ((c.Decrement k n).value = 0 ∧ (c.Decrement k n).err = some .ErrNotSupport ∧
      (c.Decrement k n).store.entryAt k = some e ∧
      ∀ k', (c.Decrement k n).store.entryAt k' = c.entryAt k') := by
  have hk' := hk
  unfold InMemoryStore.entryAt at hk
  have hinc : c.Increment k n =
      { value := 0, err := some .ErrNotSupport, store := { c with lru := (c.lru.Get k).2 } } := by
    unfold InMemoryStore.Increment
    rw [ARCCache.Get_items_of_some hk]
    obtain ⟨d, ta, ea⟩ := e
    cases d <;> first | exact absurd rfl hd | rfl
  have hdec : c.Decrement k n =
      { value := 0, err := some .ErrNotSupport, store := { c with lru := (c.lru.Get k).2 } } := by
    unfold InMemoryStore.Decrement
    rw [ARCCache.Get_items_of_some hk]
    obtain ⟨d, ta, ea⟩ := e
    cases d <;> first | exact absurd rfl hd | rfl
  have hall : ∀ k', InMemoryStore.entryAt { c with lru := (c.lru.Get k).2 } k' =
      c.entryAt k' := fun k' => ARCCache.Get_lookup c.lru k k'
  rw [hinc, hdec]
  exact ⟨⟨rfl, rfl, (hall k).trans hk', hall⟩, ⟨rfl, rfl, (hall k).trans hk', hall⟩⟩

/-- C14 at a concrete input: a key holding the string `"foo"`. -/
theorem Increment_Decrement_not_int_witness :
    ((sampleStore.Set ⟨10, 0⟩ "s" (.string "foo") FOREVER).store.Increment "s" 1).err =
      some .ErrNotSupport ∧
    ((sampleStore.Set ⟨10, 0⟩ "s" (.string "foo") FOREVER).store.Decrement "s" 1).err =
      some .ErrNotSupport :=
  have h := Increment_Decrement_not_int (sampleStore.Set ⟨10, 0⟩ "s" (.string "foo") FOREVER).store
    "s" { Data := .string "foo", TimeAdded := 10, ExpiresAt := 0 } 1 rfl (by decide)
  ⟨h.1.2.1, h.2.2.1⟩

/-! ## Misses on an empty store (C15) -/

/-- C16, the code at the failing input: a cache built by `NewCacheWithMultiPools` whose write
pool holds `"primary"` under `"k"` and whose read pool holds `"replica"`. `Get("k", &s)` on
the cache reads the write pool and returns `"primary"`, where `Get` on its `ReadCache` returns
`"replica"`; `Exists("k")` does go to the `ReadCache` and finds the entry with `"replica"`. -/
theorem Get_bypasses_ReadCache :
    ∃ rc, twoPoolCache.ReadCache = some rc ∧
      (∃ c1, twoPoolCache.Get sampleCodec ⟨20, 0⟩ "k" (.ptr (.string "")) =
        .returned { err := none, dest := .ptr (.string "primary"), cache := c1 }) ∧
      (∃ c2, rc.Get sampleCodec ⟨20, 0⟩ "k" (.ptr (.string "")) =
        .returned { err := none, dest := .ptr (.string "replica"), cache := c2 }) ∧
      (∃ c3, twoPoolCache.Exists sampleCodec ⟨20, 0⟩ "k" =
        .returned { found := true,
                    entry := { Data := .string "replica", TimeAdded := 10, ExpiresAt := 0 },
                    err := none, cache := c3 }) :=
  ⟨_, rfl, ⟨_, rfl⟩, ⟨_, rfl⟩, ⟨_, rfl⟩⟩

/-! ## Destinations without a case (C17) -/

/-- C17: on a cache with a backing store, for every key, present or absent, and every
destination whose type the switch of `Get` has no case for (a `*bool`, a plain string, a nil
interface), `Get` returns `ErrNotSupport` (the value generic.go names), the destination is as
it was and so is the cache with its store: the store is not called. -/
theorem Get_unsupported_dest (c : GenericCache) (store : InMemoryStore)
    (hc : c.Cache = some store) (cd : Codec) (now : Time) (k : String) (dest : Dest)
    (hty : getDispatches dest.typeOf = false) :
    c.Get cd now k dest =
      .returned { err := some .GenericErrNotSupport, dest := dest, cache := c } := by
  unfold GenericCache.Get
  rw [hc]
  simp only
  generalize dest.typeOf = ty at hty
  cases ty with
  | ptr t => cases t <;> first | (simp [getDispatches] at hty; done) | rfl
  | _ => first | (simp [getDispatches] at hty; done) | rfl

/-- C17 at concrete inputs: a `*bool` destination, for a key the store holds and for one it
does not. -/
theorem Get_unsupported_dest_witness :
    (∃ st, twoPoolCache.Cache = some st ∧ (st.entryAt "k").isSome = true ∧
      (st.entryAt "absent").isSome = false) ∧
    twoPoolCache.Get sampleCodec ⟨20, 0⟩ "k" (.ptr (.bool false)) =
      .returned { err := some .GenericErrNotSupport, dest := .ptr (.bool false),
                  cache := twoPoolCache } ∧
    twoPoolCache.Get sampleCodec ⟨20, 0⟩ "absent" (.ptr (.bool false)) =
      .returned { err := some .GenericErrNotSupport, dest := .ptr (.bool false),
                  cache := twoPoolCache } :=
  ⟨⟨_, rfl, by decide, by decide⟩,
   Get_unsupported_dest twoPoolCache _ rfl sampleCodec ⟨20, 0⟩ "k" (.ptr (.bool false)) rfl,
   Get_unsupported_dest twoPoolCache _ rfl sampleCodec ⟨20, 0⟩ "absent" (.ptr (.bool false))
     rfl⟩

/-! ## A cache without a store (C18) -/

/-- C18, the code at the failing input: on a cache whose `Cache` and `ReadCache` are nil,
`AddExistingEntry` panics, since it asserts `c.Cache.(persistence.CacheStore)` with no test
for nil before it. The other nine operations make the test and return an error. -/
theorem AddExistingEntry_nil_store_panics :
    nilCache.Cache = none ∧ nilCache.ReadCache = none ∧
    nilCache.AddExistingEntry ⟨10, 0⟩ "k" ⟨.string "x", 10, 20⟩ 20 = .panicked ∧
    nilCache.Get sampleCodec ⟨10, 0⟩ "k" (.ptr (.string "")) =
      .returned { err := some (nilCache.noCacheError "Get"), dest := .ptr (.string ""),
                  cache := nilCache } ∧
    nilCache.Set sampleCodec ⟨10, 0⟩ "k" (.string "x") Second =
      .returned { err := some (nilCache.noCacheError "Set"), cache := nilCache } ∧
    (nilCache.Add ⟨10, 0⟩ "k" (.string "x") Second).err = some (nilCache.noCacheError "Add") ∧
    (nilCache.Replace ⟨10, 0⟩ "k" (.string "x") Second).err =
      some (nilCache.noCacheError "Replace") ∧
    (nilCache.Delete "k").err = some (nilCache.noCacheError "Delete") ∧
    (nilCache.Increment "k" 1).err = some (nilCache.noCacheError "Increment") ∧
    (nilCache.Decrement "k" 1).err = some (nilCache.noCacheError "Decrement") ∧
    nilCache.Flush.err = some (nilCache.noCacheError "Flush") ∧
    nilCache.Exists sampleCodec ⟨10, 0⟩ "k" =
      .returned { found := false, entry := { Data := .nil, TimeAdded := 0, ExpiresAt := 0 },
                  err := some (nilCache.noCacheError "Add"), cache := nilCache } :=
  ⟨rfl, rfl, rfl, rfl, rfl, rfl, rfl, rfl, rfl, rfl, rfl, rfl⟩

/-! ## Scalars on an encrypting cache (C19) -/

/-- C19: on a cache with a backing store, with `EncryptData = true` as with `false`, for every
value that is not an entry wrapper `Set(k, v, ttl)` is the store's `Set` of `v` itself, with
the ttl or the cache's default for a zero one; it returns nil, and the entry the store then
holds under `k` has `Data` equal to `v`, not a ciphertext. The store's own `Get` at a clock
reading not after the stamp hands a string, an int or a `ResponseCache` back as it is. -/
theorem Set_scalar_stored_clear (c : GenericCache) (store : InMemoryStore)
    (hc : c.Cache = some store) (cd : Codec) (now : Time) (k : String) (v : Value)
    (ttl : Int) (hv : v.typeOf ≠ .GenericCacheEntry) :
    c.Set cd now k v ttl =
      .returned { err := none,
                  cache := { c with Cache := some (store.Set now k v (c.storeExp ttl)).store } } ∧
    (store.Set now k v (c.storeExp ttl)).err = none ∧
    (store.Set now k v (c.storeExp ttl)).store.entryAt k =
      some { Data := v, TimeAdded := now.Unix,
             ExpiresAt := expiryStamp store.DefaultExp now.Unix (c.storeExp ttl) } ∧
    (∀ (tGet : Time) (old : Value), servedAsIs v.typeOf → old.typeOf = v.typeOf →
      stampLive (expiryStamp store.DefaultExp now.Unix (c.storeExp ttl)) tGet →
      ∃ st, (store.Set now k v (c.storeExp ttl)).store.Get tGet k (.ptr old) =
        .returned { err := none, dest := .ptr v, store := st }) := by
  have hne : ∀ d ta ea, v ≠ .entry d ta ea := by
    intro d ta ea h
    subst h
    exact hv rfl
  obtain ⟨herr, hst, -⟩ := doAddSet_stored store now k v (c.storeExp ttl)
  have hsd : storedData v = v := by
    cases v <;> first | rfl | exact absurd rfl hv
  rw [hsd] at hst
  refine ⟨?_, herr, hst, ?_⟩
  · rw [GenericCache.Set_plain hc cd now k v ttl (Or.inr hne)]
    simp only [InMemoryStore.Set, herr]
  · intro tGet old hty hold hlive
    exact ⟨_, Get_live_scalar hst (not_Expired_of_stampLive hlive) old hty hold⟩

/-- C19 at a concrete input: the string `"foo"` set on the encrypting sample cache is held by
the store as `"foo"`. -/
theorem Set_scalar_stored_clear_witness :
    (sampleCache true).EncryptData = true ∧
    (sampleStore.Set ⟨10, 0⟩ "value" (.string "foo") ((sampleCache true).storeExp Second)
      ).store.entryAt "value" =
      some { Data := .string "foo", TimeAdded := 10, ExpiresAt := 11 } :=
  ⟨rfl, (Set_scalar_stored_clear (sampleCache true) sampleStore rfl sampleCodec ⟨10, 0⟩
    "value" (.string "foo") Second (by decide)).2.2.1⟩

/-! ## Keys (C20) -/

theorem hexDigit_ne_colon (n : Nat) (h : n < 16) : hexDigit n ≠ ':' := by
  interval_cases n <;> decide

theorem entrySignature_chars (hmac : Bytes → Bytes → Bytes) (entry secret : Bytes) :
    ∀ ch ∈ (entrySignature hmac entry secret).toList, ch ≠ ':' := by
  intro ch hch
  have hmem : ch ∈ (hmac secret entry).flatMap
      fun x => [hexDigit (x / 16 % 16), hexDigit (x % 16)] := hch
  rw [List.mem_flatMap] at hmem
  obtain ⟨x, -, hx⟩ := hmem
  simp only [List.mem_cons, List.mem_singleton, List.not_mem_nil, or_false] at hx
  rcases hx with rfl | rfl
  · exact hexDigit_ne_colon _ (Nat.mod_lt _ (by norm_num))
  · exact hexDigit_ne_colon _ (Nat.mod_lt _ (by norm_num))

/-- C20, counterexample: with a zero-length key prefix that is not nil, `GetKey` returns
`"::"` followed by the signature, not the signature alone. -/
theorem GetKey_zero_length_keeps_separator :
    (NewCacheWithPool (some sampleStore) Writable L2 sampleSecret 0 (some []) false).GetKey
        sampleMac [1, 2, 3] =
      "::" ++ entrySignature sampleMac [1, 2, 3] sampleSecret ∧
    (NewCacheWithPool (some sampleStore) Writable L2 sampleSecret 0 (some []) false).GetKey
        sampleMac [1, 2, 3] ≠ entrySignature sampleMac [1, 2, 3] sampleSecret := by
  decide

/-- C20, amended: for every payload and secret, `GetKey(payload)` is the key prefix, `"::"`
and the signature when the cache's key prefix is not nil, a zero-length one included, and is
exactly the signature when the prefix is nil; the signature, two hex digits per byte of the
MAC, has no `':'` in it, so the two cases never give the same key. -/
theorem GetKey_format (c : GenericCache) (hmac : Bytes → Bytes → Bytes) (payload : Bytes) :
    (c.KeyPrefix = none →
      c.GetKey hmac payload = entrySignature hmac payload c.sharedSecret) ∧
    (∀ pfx, c.KeyPrefix = some pfx →
      c.GetKey hmac payload =
        bytesToString pfx ++ "::" ++ entrySignature hmac payload c.sharedSecret ∧
      c.GetKey hmac payload ≠ entrySignature hmac payload c.sharedSecret) ∧
    (∀ ch ∈ (entrySignature hmac payload c.sharedSecret).toList, ch ≠ ':') ∧
    (entrySignature hmac payload c.sharedSecret).length =
      2 * (hmac c.sharedSecret payload).length := by
  refine ⟨?_, ?_, entrySignature_chars hmac payload c.sharedSecret, ?_⟩
  · intro h
    unfold GenericCache.GetKey
    rw [h]
  · intro pfx h
    have hkey : c.GetKey hmac payload =
        bytesToString pfx ++ "::" ++ entrySignature hmac payload c.sharedSecret := by
      unfold GenericCache.GetKey
      rw [h]
    refine ⟨hkey, ?_⟩
    intro heq
    have hlen := congrArg String.length heq
    rw [hkey] at hlen
    simp only [String.length_append] at hlen
    have h2 : ("::" : String).length = 2 := by decide
    omega
  · unfold entrySignature hexEncode
    simp only [String.length]
    induction hmac c.sharedSecret payload with
    | nil => rfl
    | cons x xs ih =>
      simp only [List.flatMap_cons, List.length_append, List.length_cons, List.length_nil, ih]
      omega

/-- C20 (amended) at concrete inputs: the prefix `"test"` of the tests, and no prefix. -/
theorem GetKey_format_witness :
    (sampleCache false).GetKey sampleMac [1, 2, 3] =
      "test::" ++ entrySignature sampleMac [1, 2, 3] sampleSecret ∧
    nilCache.GetKey sampleMac [1, 2, 3] = entrySignature sampleMac [1, 2, 3] sampleSecret :=
  ⟨((GetKey_format (sampleCache false) sampleMac [1, 2, 3]).2.1 [116, 101, 115, 116] rfl).1,
   (GetKey_format nilCache sampleMac [1, 2, 3]).1 rfl⟩

/-! ## Key and IV (C21, C22) -/

theorem reverseLoop_sixteen (l : Bytes) (h : l.length = 16) :
    reverseLoop l 8 = l.reverse := by
  match l, h with
  | [a0, a1, a2, a3, a4, a5, a6, a7, a8, a9, a10, a11, a12, a13, a14, a15], _ =>
    simp only [reverseLoop, swapAt, List.length_cons, List.length_nil, List.set_cons_succ,
      List.set_cons_zero, List.getD_cons_succ, List.getD_cons_zero, List.length_set]
    simp

theorem keyAndIV_reversed {secret : Bytes} (h : 16 ≤ secret.length) :
    keyAndIV secret = .ok ((secret.take 16).reverse, (secret.take 16).reverse) := by
  have h1 : ¬ secret.length < 16 := by omega
  have h2 : (secret.take 16).length = 16 := by
    rw [List.length_take]
    omega
  unfold keyAndIV
  simp only [h1, if_false, h2]
  rw [show (16 : Nat) / 2 = 8 from rfl, reverseLoop_sixteen _ h2]

/-- C21, the code at the failing input: for the secret `"test-secret-must"` of the tests,
`keyAndIV` returns the sixteen bytes reversed as the IV and as the key as well, since both are
the slice `tmp[:16]` of one array and the loop reverses it in place. The key is not the first
sixteen bytes in their original order. -/
theorem keyAndIV_key_reversed :
    keyAndIV sampleSecret =
      .ok ([116, 115, 117, 109, 45, 116, 101, 114, 99, 101, 115, 45, 116, 115, 101, 116],
           [116, 115, 117, 109, 45, 116, 101, 114, 99, 101, 115, 45, 116, 115, 101, 116]) ∧
    sampleSecret.take 16 =
      [116, 101, 115, 116, 45, 115, 101, 99, 114, 101, 116, 45, 109, 117, 115, 116] ∧
    (keyAndIV sampleSecret).toOption.map Prod.fst ≠ some (sampleSecret.take 16) :=
  ⟨rfl, rfl, by decide⟩

/-- C22: `keyAndIV` returns an error exactly when the secret is shorter than 16 bytes, and
so do `encryptByteArray` and `decryptByteArray`, whatever the input; with a secret of 16
bytes or more both return a result for every input whose length is a multiple of 16 (the
block mode applied under the key and IV of `keyAndIV`), and for an input that is not whole
blocks they return no error either: the block mode panics. -/
theorem keyAndIV_error_iff (cd : Codec) (secret data : Bytes) :
    ((∃ e, keyAndIV secret = .error e) ↔ secret.length < 16) ∧
    ((∃ e, encryptByteArray cd data secret = .returned (.error e)) ↔ secret.length < 16) ∧
    ((∃ e, decryptByteArray cd data secret = .returned (.error e)) ↔ secret.length < 16) ∧
    (16 ≤ secret.length → data.length % 16 = 0 →
      ∃ key iv, keyAndIV secret = .ok (key, iv) ∧
        encryptByteArray cd data secret = .returned (.ok (cd.cbcEncrypt key iv data)) ∧
        decryptByteArray cd data secret = .returned (.ok (cd.cbcDecrypt key iv data))) ∧
    (16 ≤ secret.length → data.length % 16 ≠ 0 →
      encryptByteArray cd data secret = .panicked ∧
      decryptByteArray cd data secret = .panicked) := by
  by_cases h : secret.length < 16
  · have hk : keyAndIV secret =
        .error (.errorf "cache.keyAndIV: secret is too short - must be a min len of 16") := by
      unfold keyAndIV
      simp only [h, if_true]
    have he : encryptByteArray cd data secret = .returned (.error
        (.errorf "cache.keyAndIV: secret is too short - must be a min len of 16")) := by
      unfold encryptByteArray
      rw [hk]
    have hd : decryptByteArray cd data secret = .returned (.error
        (.errorf "cache.keyAndIV: secret is too short - must be a min len of 16")) := by
      unfold decryptByteArray
      rw [hk]
    exact ⟨⟨fun _ => h, fun _ => ⟨_, hk⟩⟩, ⟨fun _ => h, fun _ => ⟨_, he⟩⟩,
      ⟨fun _ => h, fun _ => ⟨_, hd⟩⟩, fun h16 => absurd h (by omega),
      fun h16 => absurd h (by omega)⟩
  · have h16 : 16 ≤ secret.length := by omega
    obtain ⟨r, hr, hlen⟩ := keyAndIV_ok h16
    have henc : ∀ e, encryptByteArray cd data secret ≠ .returned (.error e) := by
      intro e
      unfold encryptByteArray
      rw [hr]
      by_cases hd : data.length % 16 = 0 <;> simp [aesKeySizeOk, hlen, hd]
    have hdec : ∀ e, decryptByteArray cd data secret ≠ .returned (.error e) := by
      intro e
      unfold decryptByteArray
      rw [hr]
      by_cases hd : data.length % 16 = 0 <;> simp [aesKeySizeOk, hlen, hd]
    refine ⟨⟨?_, fun hlt => absurd hlt h⟩, ⟨?_, fun hlt => absurd hlt h⟩,
      ⟨?_, fun hlt => absurd hlt h⟩, ?_, ?_⟩
    · rintro ⟨e, he⟩
      rw [hr] at he
      exact Except.noConfusion he
    · rintro ⟨e, he⟩
      exact absurd he (henc e)
    · rintro ⟨e, he⟩
      exact absurd he (hdec e)
    · intro _ hd
      obtain ⟨r', hr', he, hde⟩ := encryptByteArray_ok cd h16 hd
      exact ⟨r', r', hr', he, hde⟩
    · intro _ hd
      constructor
      · unfold encryptByteArray
        rw [hr]
        simp [aesKeySizeOk, hlen, hd]
      · unfold decryptByteArray
        rw [hr]
        simp [aesKeySizeOk, hlen, hd]

/-- C22 at concrete inputs: a secret of 15 bytes is refused, and with the 16-byte secret of
the tests one block goes through. -/
theorem keyAndIV_error_iff_witness :
    (∃ e, encryptByteArray sampleCodec (List.replicate 16 7) (List.replicate 15 1) =
      .returned (.error e)) ∧
    ∃ key iv, keyAndIV sampleSecret = .ok (key, iv) ∧
      encryptByteArray sampleCodec (List.replicate 16 7) sampleSecret =
        .returned (.ok (sampleCodec.cbcEncrypt key iv (List.replicate 16 7))) ∧
      decryptByteArray sampleCodec (List.replicate 16 7) sampleSecret =
        .returned (.ok (sampleCodec.cbcDecrypt key iv (List.replicate 16 7))) :=
  ⟨(keyAndIV_error_iff sampleCodec (List.replicate 15 1) (List.replicate 16 7)).2.1.mpr
      (by decide),
   (keyAndIV_error_iff sampleCodec sampleSecret (List.replicate 16 7)).2.2.2.1 (by decide)
      (by decide)⟩

/-! ## Padding (C23, C24, C25, C27) -/

/-- C23: for every non-empty `src` and every block size `bs` with `1 ≤ bs ≤ 255`,
`Padding(src, bs)` returns `src` followed by `p = bs - len(src) mod bs` bytes of value `p`,
so that the padded length is a multiple of `bs` that exceeds `len(src)` by `p`, between 1
and `bs`; and `Unpadding` of the padded bytes returns `src` with no error. -/
theorem Padding_Unpadding_roundtrip (src : Bytes) (bs : Int) (hsrc : src ≠ []) (h1 : 1 ≤ bs)
    (h255 : bs ≤ 255) :
    ∃ (padded : Bytes) (p : Nat),
      Padding src bs = .returned padded ∧
      (p : Int) = bs - (src.length : Int) % bs ∧
      padded = src ++ List.replicate p p ∧
      1 ≤ p ∧ (p : Int) ≤ bs ∧
      padded.length = src.length + p ∧
      (padded.length : Int) % bs = 0 ∧
      Unpadding padded bs = .returned (.ok src) := by
  have hbs : 0 < bs := by omega
  obtain ⟨hp1, hp2⟩ := padLen_bounds src.length hbs
  have hpad : Padding src bs = _ := Padding_eq hbs
  have hmod : ((bs - (src.length : Int) % bs) % 256).toNat =
      (bs - (src.length : Int) % bs).toNat := by
    rw [Int.emod_eq_of_lt (by omega) (by omega)]
  rw [hmod] at hpad
  have hcast : (((bs - (src.length : Int) % bs).toNat : Nat) : Int) =
      bs - (src.length : Int) % bs := Int.toNat_of_nonneg (by omega)
  obtain ⟨-, hmul⟩ := Padding_length hbs hpad
  refine ⟨_, (bs - (src.length : Int) % bs).toNat, hpad, hcast, rfl, by omega, by omega,
    by simp, hmul, Unpadding_Padding hbs h255 hsrc hpad⟩

/-- C23 at concrete inputs: three bytes padded to a block of 16 and unpadded again. -/
theorem Padding_Unpadding_roundtrip_witness :
    ∃ (padded : Bytes) (p : Nat),
      Padding [1, 2, 3] 16 = .returned padded ∧
      (p : Int) = 16 - (([1, 2, 3] : Bytes).length : Int) % 16 ∧
      padded = [1, 2, 3] ++ List.replicate p p ∧
      1 ≤ p ∧ (p : Int) ≤ 16 ∧
      padded.length = ([1, 2, 3] : Bytes).length + p ∧
      (padded.length : Int) % 16 = 0 ∧
      Unpadding padded 16 = .returned (.ok [1, 2, 3]) :=
  Padding_Unpadding_roundtrip [1, 2, 3] 16 (by decide) (by decide) (by decide)

/-- C24: for every non-empty `src` and every block size, when the value of the final byte of
`src` exceeds the block size or exceeds `len(src)`, `Unpadding` returns `ErrPaddingSize` and
no data. -/
theorem Unpadding_rejects (src : Bytes) (bs : Int) (last : Nat)
    (hlast : src.getLast? = some last)
    (h : (last : Int) > bs ∨ last > src.length) :
    Unpadding src bs = .returned (.error .ErrPaddingSize) := by
  unfold Unpadding
  rw [hlast]
  have hc : ((last : Int) ≥ (src.length : Int) ∨ (last : Int) > bs) := by
    rcases h with h | h
    · exact Or.inr h
    · exact Or.inl (by exact_mod_cast Nat.le_of_lt h)
  simp only [hc, if_true]

/-- C24 at concrete inputs: a final byte of 17 against a block size of 16, and a final byte
of 9 in a slice of three bytes. -/
theorem Unpadding_rejects_witness :
    Unpadding (List.replicate 31 0 ++ [17]) 16 = .returned (.error .ErrPaddingSize) ∧
    Unpadding [1, 2, 9] 16 = .returned (.error .ErrPaddingSize) :=
  ⟨Unpadding_rejects (List.replicate 31 0 ++ [17]) 16 17 (by decide) (Or.inl (by decide)),
   Unpadding_rejects [1, 2, 9] 16 9 (by decide) (Or.inr (by decide))⟩

/-- C25, the code at the failing input: `Unpadding` of the empty slice panics, since
`src[srcLen-1]` is read before any test; and on an encrypting cache `decryptEntry` of the
empty ciphertext panics in the same place, the block mode turning no bytes into no bytes. -/
theorem Unpadding_empty_panics :
    Unpadding [] 16 = .panicked ∧
    sampleCodec.cbcDecrypt [] [] [] = [] ∧
    (sampleCache true).decryptEntry sampleCodec [] = .panicked :=
  ⟨rfl, rfl, rfl⟩

/-- C27: `Padding` of the empty byte string with block size 16 is sixteen bytes of value 16,
and `Unpadding` of that block returns `ErrPaddingSize`, not the empty string; in general
`Unpadding` returns `ErrPaddingSize` for every input whose final byte equals its length. -/
theorem Padding_empty_not_recovered :
    Padding [] 16 = .returned (List.replicate 16 16) ∧
    Unpadding (List.replicate 16 16) 16 = .returned (.error .ErrPaddingSize) ∧
    ∀ (src : Bytes) (bs : Int), src.getLast? = some src.length →
      Unpadding src bs = .returned (.error .ErrPaddingSize) := by
  refine ⟨rfl, rfl, ?_⟩
  intro src bs hlast
  unfold Unpadding
  rw [hlast]
  simp

/-- C27 at a concrete input: two bytes whose last one is 2. -/
theorem Padding_empty_not_recovered_witness :
    Unpadding [7, 2] 16 = .returned (.error .ErrPaddingSize) :=
  Padding_empty_not_recovered.2.2 [7, 2] 16 (by decide)

/-! ## The sweep (C26) -/

theorem sweepKey_entryAt (now : Time) (c : InMemoryStore) (key k : String) :
    (InMemoryStore.sweepKey now c key).entryAt k =
      if k = key then (c.entryAt k).filter (fun e => !e.Expired now) else c.entryAt k := by
  unfold InMemoryStore.sweepKey InMemoryStore.entryAt
  cases hl : lookupKey key c.lru.items with
  | none =>
    rw [ARCCache.Get_of_none hl]
    by_cases hk : k = key
    · subst hk
      simp [hl]
    · simp [hk]
  | some e =>
    have hget := ARCCache.Get_lookup c.lru key k
    rw [ARCCache.Get_items_of_some hl] at hget ⊢
    simp only at hget ⊢
    by_cases hx : e.Expired now = true
    · simp only [hx, if_true, ARCCache.Remove]
      by_cases hk : k = key
      · subst hk
        simp [removeKey_cons_self, removeKey_idem, lookupKey_removeKey_self, hl, hx,
          Option.filter]
      · rw [if_neg hk, removeKey_cons_self, removeKey_idem, lookupKey_removeKey_ne hk]
    · simp only [hx]
      by_cases hk : k = key
      · subst hk
        simp [hl, hx, Option.filter]
      · rw [if_neg hk]
        simpa using hget

theorem sweep_entryAt (now : Time) (keys : List String) (c : InMemoryStore) (k : String) :
    (keys.foldl (InMemoryStore.sweepKey now) c).entryAt k =
      if k ∈ keys then (c.entryAt k).filter (fun e => !e.Expired now) else c.entryAt k := by
  induction keys generalizing c with
  | nil => simp
  | cons key rest ih =>
    rw [List.foldl_cons, ih, sweepKey_entryAt]
    by_cases hk : k = key
    · subst hk
      simp only [if_true, List.mem_cons, true_or]
      cases h : c.entryAt k with
      | none => simp
      | some e =>
        by_cases hx : e.Expired now = true <;> simp [Option.filter, hx]
    · simp [hk]

theorem DeleteExpired_entryAt (c : InMemoryStore) (now : Time) (k : String) :
    (c.DeleteExpired now).entryAt k = (c.entryAt k).filter (fun e => !e.Expired now) := by
  unfold InMemoryStore.DeleteExpired
  rw [sweep_entryAt]
  by_cases hk : k ∈ c.lru.Keys
  · rw [if_pos hk]
  · rw [if_neg hk]
    have hnone : c.entryAt k = none := by
      unfold InMemoryStore.entryAt
      rw [lookupKey_eq_none_iff]
      intro hm
      exact hk (by simpa [ARCCache.Keys] using hm)
    rw [hnone]
    rfl

/-- C26: for every store state and clock reading `t`, after `DeleteExpired` has run at `t` no
key of the store holds an entry that is expired at `t`, and every key whose entry was not
expired at `t` still holds that entry, with its `Data`, `TimeAdded` and `ExpiresAt`. -/
theorem DeleteExpired_sweeps (c : InMemoryStore) (t : Time) :
    (∀ k e, (c.DeleteExpired t).entryAt k = some e → e.Expired t = false) ∧
    (∀ k e, c.entryAt k = some e → e.Expired t = false →
      (c.DeleteExpired t).entryAt k = some e) ∧
    (∀ k e, (c.DeleteExpired t).entryAt k = some e → c.entryAt k = some e) := by
  refine ⟨?_, ?_, ?_⟩
  · intro k e h
    rw [DeleteExpired_entryAt] at h
    cases hc : c.entryAt k with
    | none => simp [hc] at h
    | some e0 =>
      rw [hc] at h
      by_cases hx : e0.Expired t = true
      · simp [Option.filter, hx] at h
      · simp [Option.filter, hx] at h
        subst h
        simpa using hx
  · intro k e h hx
    rw [DeleteExpired_entryAt, h]
    simp [Option.filter, hx]
  · intro k e h
    rw [DeleteExpired_entryAt] at h
    cases hc : c.entryAt k with
    | none => simp [hc] at h
    | some e0 =>
      rw [hc] at h
      by_cases hx : e0.Expired t = true
      · simp [Option.filter, hx] at h
      · simp [Option.filter, hx] at h
        rw [h]

/-- C26 at a concrete input: a store with one stale and one live entry, swept at second
103. -/
theorem DeleteExpired_sweeps_witness :
    ((staleStore.Set ⟨100, 0⟩ "live" (.string "x") FOREVER).store.DeleteExpired
      ⟨103, 0⟩).entryAt "live" = some { Data := .string "x", TimeAdded := 100, ExpiresAt := 0 } ∧
    ((staleStore.Set ⟨100, 0⟩ "live" (.string "x") FOREVER).store.DeleteExpired
      ⟨103, 0⟩).entryAt "int" = none :=
  ⟨(DeleteExpired_sweeps (staleStore.Set ⟨100, 0⟩ "live" (.string "x") FOREVER).store
      ⟨103, 0⟩).2.1 "live" _ (by decide) (by decide),
   by decide⟩

/-! ## Type assertions of `Get` (C28) -/

/-- C28, the code at the failing input: the string `"foo"` is stored without an expiry and
read into an `*int`. The entry is live and `*int` is a destination `Get` has a case for; the
assertion `entry.Data.(int)` of that case panics on the string. -/
theorem Get_mismatch_panics :
    (sampleStore.Set ⟨10, 0⟩ "k" (.string "foo") FOREVER).store.entryAt "k" =
      some { Data := .string "foo", TimeAdded := 10, ExpiresAt := 0 } ∧
    GenericCacheEntry.Expired { Data := .string "foo", TimeAdded := 10, ExpiresAt := 0 }
      ⟨20, 0⟩ = false ∧
    (sampleStore.Set ⟨10, 0⟩ "k" (.string "foo") FOREVER).store.Get ⟨20, 0⟩ "k"
      (.ptr (.int 0)) = .panicked := by
  decide

/-! ## What a counter leaves alone (C29) -/

theorem count_ok_int {c : InMemoryStore} {k : String} {n : Nat}
    (h : (c.Increment k n).err = none ∨ (c.Decrement k n).err = none) :
    ∃ e v, c.entryAt k = some e ∧ e.Data = .int v := by
  unfold InMemoryStore.entryAt
  cases hl : lookupKey k c.lru.items with
  | none =>
    exfalso
    unfold InMemoryStore.Increment InMemoryStore.Decrement at h
    rw [ARCCache.Get_of_none hl] at h
    simp at h
  | some e =>
    obtain ⟨d, ta, ea⟩ := e
    unfold InMemoryStore.Increment InMemoryStore.Decrement at h
    rw [ARCCache.Get_items_of_some hl] at h
    cases d <;> first | exact ⟨_, _, rfl, rfl⟩ | (exfalso; simp at h)

theorem count_frame (c : InMemoryStore) (k : String) (e e1 : GenericCacheEntry)
    (hk : c.entryAt k = some e) {k' : String} (hne : k' ≠ k) :
    InMemoryStore.entryAt ⟨(c.lru.Get k).2.Add k e1, c.DefaultExp⟩ k' = c.entryAt k' := by
  unfold InMemoryStore.entryAt at hk ⊢
  have hp : (lookupKey k (c.lru.Get k).2.items).isSome = true := by
    rw [ARCCache.Get_lookup, hk]
    rfl
  simp only
  rw [ARCCache.Add_lookup_of_present hp e1 hne, ARCCache.Get_lookup]

/-- C29: a successful `Increment(k, n)` or `Decrement(k, n)` leaves under `k` the entry that
was there with a new `int` as `Data` and the same `TimeAdded` and `ExpiresAt`, and leaves the
entry of every other key as it was. -/
theorem count_changes_only_Data (c : InMemoryStore) (k : String) (n : Nat) :
    ((c.Increment k n).err = none →
      ∃ e w, c.entryAt k = some e ∧
        (c.Increment k n).store.entryAt k =
          some { Data := .int w, TimeAdded := e.TimeAdded, ExpiresAt := e.ExpiresAt } ∧
        ∀ k', k' ≠ k → (c.Increment k n).store.entryAt k' = c.entryAt k') ∧
    ((c.Decrement k n).err = none →
      ∃ e w, c.entryAt k = some e ∧
        (c.Decrement k n).store.entryAt k =
          some { Data := .int w, TimeAdded := e.TimeAdded, ExpiresAt := e.ExpiresAt } ∧
        ∀ k', k' ≠ k → (c.Decrement k n).store.entryAt k' = c.entryAt k') := by
  constructor
  · intro h
    obtain ⟨e, v, hk, hd⟩ := count_ok_int (Or.inl h)
    refine ⟨e, wrapInt64 (v + n), hk, Increment_entryAt hk hd n, ?_⟩
    intro k' hne
    rw [Increment_int hk hd]
    exact count_frame c k e _ hk hne
  · intro h
    obtain ⟨e, v, hk, hd⟩ := count_ok_int (Or.inr h)
    rw [Decrement_int hk hd]
    refine ⟨e, (if wrapInt64 n > v then 0 else wrapInt64 (v - wrapInt64 n)), hk, ?_, ?_⟩
    · simp only [InMemoryStore.entryAt, ARCCache.Add_lookup_self]
    · intro k' hne
      exact count_frame c k e _ hk hne

/-- C29 at a concrete input: a counter set at second 10 with the default expiry and
incremented keeps its stamps, and the other key keeps its entry. -/
theorem count_changes_only_Data_witness :
    ∃ e w, (liveStore.Set ⟨10, 0⟩ "n" (.int 10) DEFAULT).store.entryAt "n" = some e ∧
      ((liveStore.Set ⟨10, 0⟩ "n" (.int 10) DEFAULT).store.Increment "n" 50).store.entryAt "n" =
        some { Data := .int w, TimeAdded := e.TimeAdded, ExpiresAt := e.ExpiresAt } ∧
      ∀ k', k' ≠ "n" →
        ((liveStore.Set ⟨10, 0⟩ "n" (.int 10) DEFAULT).store.Increment "n" 50).store.entryAt k' =
          (liveStore.Set ⟨10, 0⟩ "n" (.int 10) DEFAULT).store.entryAt k' :=
  (count_changes_only_Data (liveStore.Set ⟨10, 0⟩ "n" (.int 10) DEFAULT).store "n" 50).1
    (by decide)

/-! ## AddExistingEntry (C30) -/

/-- C30: on a cache backed by the in-process store, with the clock at unix second `now`,
`AddExistingEntry(k, entry, expiresAt)` returns nil and stores `entry.Data` under `k` with
`TimeAdded = now`; for every `int64` value `expiresAt` other than `now` whose distance from
`now`, in nanoseconds, is below `2^63`, the stored `ExpiresAt` is `expiresAt` itself, so that
`expiresAt = 0` gives an entry that is never expired; for `expiresAt = now` the stamp is that
of the store's default expiry. -/
theorem AddExistingEntry_stamp (c : GenericCache) (store : InMemoryStore)
    (hc : c.Cache = some store) (now : Time) (k : String) (entry : GenericCacheEntry)
    (expiresAt : Int) (hint : isInt64 expiresAt)
    (hd : |expiresAt - now.Unix| * 1000000000 < 2 ^ 63) :
    ∃ (c1 : GenericCache) (st : InMemoryStore),
      c.AddExistingEntry now k entry expiresAt = .returned { err := none, cache := c1 } ∧
      c1.Cache = some st ∧
      (expiresAt ≠ now.Unix →
        st.entryAt k = some { Data := entry.Data, TimeAdded := now.Unix,
                              ExpiresAt := expiresAt }) ∧
      (expiresAt = 0 → now.Unix ≠ 0 → ∀ e, st.entryAt k = some e → ∀ t, e.Expired t = false) ∧
      (expiresAt = now.Unix →
        st.entryAt k = some { Data := entry.Data, TimeAdded := now.Unix,
                              ExpiresAt := wrapInt64 (now.Unix + Int.tdiv store.DefaultExp
                                Second) }) := by
  have habs := abs_lt.mp (lt_of_le_of_lt (le_mul_of_one_le_right (abs_nonneg _)
    (by norm_num : (1 : Int) ≤ 1000000000)) hd)
  have hd' := abs_lt.mp (by rwa [← abs_of_pos (by norm_num : (0 : Int) < 1000000000),
    ← abs_mul] at hd : |(expiresAt - now.Unix) * 1000000000| < 2 ^ 63)
  have hw1 : wrapInt64 (expiresAt - now.Unix) = expiresAt - now.Unix := by
    apply wrapInt64_of_isInt64
    unfold isInt64
    constructor <;> [linarith [habs.1]; linarith [habs.2]]
  have hw2 : wrapInt64 ((expiresAt - now.Unix) * Second) = (expiresAt - now.Unix) * Second := by
    apply wrapInt64_of_isInt64
    unfold isInt64 Second
    constructor <;> [linarith [hd'.1]; linarith [hd'.2]]
  obtain ⟨herr, hst, -⟩ := doAddSet_stored store now k entry.toValue
    ((expiresAt - now.Unix) * Second)
  have hsd : storedData entry.toValue = entry.Data := rfl
  rw [hsd] at hst
  have hrun : c.AddExistingEntry now k entry expiresAt =
      .returned { err := none,
                  cache := { c with Cache := some (store.doAddSet now k entry.toValue
                    ((expiresAt - now.Unix) * Second)).store } } := by
    unfold GenericCache.AddExistingEntry
    rw [hc]
    simp only [hw1, hw2, InMemoryStore.Set, herr]
  have hstampne : expiresAt ≠ now.Unix →
      expiryStamp store.DefaultExp now.Unix ((expiresAt - now.Unix) * Second) = expiresAt := by
    intro hne
    have hne0 : expiresAt - now.Unix ≠ 0 := sub_ne_zero.mpr hne
    have h1 : (expiresAt - now.Unix) * Second ≠ FOREVER := by
      unfold Second FOREVER
      omega
    have h2 : (expiresAt - now.Unix) * Second ≠ 0 := by
      unfold Second
      omega
    unfold expiryStamp
    rw [if_neg h1, if_pos h2, tdiv_mul_Second]
    rw [show now.Unix + (expiresAt - now.Unix) = expiresAt by ring]
    exact wrapInt64_of_isInt64 hint
  refine ⟨_, _, hrun, rfl, ?_, ?_, ?_⟩
  · intro hne
    rw [hst, hstampne hne]
  · intro h0 hnow e he t
    have hne : expiresAt ≠ now.Unix := by rw [h0]; exact fun h => hnow h.symm
    rw [hst, hstampne hne] at he
    injection he with he
    subst he
    unfold GenericCacheEntry.Expired
    simp [h0]
  · intro heq
    rw [hst]
    have : expiryStamp store.DefaultExp now.Unix ((expiresAt - now.Unix) * Second) =
        wrapInt64 (now.Unix + Int.tdiv store.DefaultExp Second) := by
      rw [heq, sub_self, zero_mul]
      unfold expiryStamp
      rw [if_neg (by decide), if_neg (by simp)]
    rw [this]

/-- C30 at a concrete input: at second 1000 an entry is added to expire at second 1060. -/
theorem AddExistingEntry_stamp_witness :
    ∃ (c1 : GenericCache) (st : InMemoryStore),
      (sampleCache false).AddExistingEntry ⟨1000, 0⟩ "k" ⟨.string "x", 5, 7⟩ 1060 =
        .returned { err := none, cache := c1 } ∧
      c1.Cache = some st ∧
      st.entryAt "k" = some { Data := .string "x", TimeAdded := 1000, ExpiresAt := 1060 } :=
  have h := AddExistingEntry_stamp (sampleCache false) sampleStore rfl ⟨1000, 0⟩ "k"
    ⟨.string "x", 5, 7⟩ 1060 (by decide) (by decide)
  match h with
  | ⟨c1, st, h1, h2, h3, _, _⟩ => ⟨c1, st, h1, h2, h3 (by decide)⟩

end GoCache
